import Mathlib

/-
Verification of the go-psnr pixel-difference accumulation engine.

Shallow embedding of the repository sources:
  * psnr.go          — public entry point Compute, alpha detector, scalar kernels
  * psnr_cgo.go      — computePSNRCgo and its kernels
  * psnr_simd.c      — compute_mse_rgba_simd (the AVX2 branch, which is the one
                       selected by the build flags `-mavx2` on amd64)

Machine integers are embedded as Nat/Int with explicit reductions modulo
2^16 / 2^32 / 2^64 exactly where the hardware arithmetic wraps.  Go float64
values are idealized as exact real numbers (the final PSNR formula), with all
integer stages kept exact and computable.
-/

namespace GoPsnr

/-- Native memory layout of a decoded Go image value, as discriminated by the
type switch in Compute: `*image.RGBA`, `*image.NRGBA`, `*image.YCbCr`, or any
other implementation of `image.Image` (e.g. `*image.Paletted`). -/
inductive Layout where
  | rgba : Layout
  | nrgba : Layout
  | ycbcr : Layout
  | generic : Layout
deriving DecidableEq, Repr

/-- A decoded image as consumed by the engine.  It exposes exactly the fields
and methods the engine uses: the bounds (width, height and the minimum corner),
the dynamic layout (Go type), the packed pixel buffer `Pix` (for the
RGBA/NRGBA fast paths), the three plane accessors `YCbCrAt(x,y).Y/.Cb/.Cr`
(for the YCbCr fast path) and the generic accessor `At(x,y).RGBA()` returning
four 16-bit channel samples.  The fields are independent, mirroring the fact
that each code path of the engine consults only the corresponding part of the
Go interface. -/
structure Img where
  width : ℕ
  height : ℕ
  minX : ℤ
  minY : ℤ
  layout : Layout
  pix : List ℕ
  yAt : ℤ → ℤ → ℕ
  cbAt : ℤ → ℤ → ℕ
  crAt : ℤ → ℤ → ℕ
  at16 : ℤ → ℤ → ℕ × ℕ × ℕ × ℕ

/-- Modulus of Go `uint64` arithmetic. -/
def M64 : ℕ := 18446744073709551616

/-- Modulus of 32-bit SIMD lane arithmetic. -/
def M32 : ℕ := 4294967296

/-- Squared difference of two 8-bit channel samples, computed as in the Go
kernels: `diff := int32(a) - int32(b); uint64(diff*diff)`.  For samples below
256 the int32 product cannot overflow, so the embedded value is the exact
square. -/
def sqDiff (a b : ℕ) : ℕ := (((a : ℤ) - (b : ℤ)) * ((a : ℤ) - (b : ℤ))).toNat

/-- Contribution of one pixel in computeMSEGeneric (psnr.go:131-152): read the
16-bit channels through At(x,y).RGBA(), shift right by 8 to 8-bit, accumulate
the three squared RGB differences, and the squared alpha difference only when
`hasAlpha` is set.  The two `+=` statements of the loop body are two wrapping
uint64 additions. -/
def genericStep (img1 img2 : Img) (hasAlpha : Bool) (x y : ℕ) (acc : ℕ) : ℕ :=
  let c1 := img1.at16 ((x : ℤ) + img1.minX) ((y : ℤ) + img1.minY)
  let c2 := img2.at16 ((x : ℤ) + img2.minX) ((y : ℤ) + img2.minY)
  let r1 := c1.1 / 256
  let g1 := c1.2.1 / 256
  let b1 := c1.2.2.1 / 256
  let a1 := c1.2.2.2 / 256
  let r2 := c2.1 / 256
  let g2 := c2.2.1 / 256
  let b2 := c2.2.2.1 / 256
  let a2 := c2.2.2.2 / 256
  let acc1 := (acc + (sqDiff r1 r2 + sqDiff g1 g2 + sqDiff b1 b2)) % M64
  if hasAlpha then (acc1 + sqDiff a1 a2) % M64 else acc1

/-- computeMSEGeneric (psnr.go:126-156): MSE accumulation for any image type,
iterating y over [0, height) and x over [0, width). -/
def computeMSEGeneric (img1 img2 : Img) (width height : ℕ) (hasAlpha : Bool) : ℕ :=
  (List.range height).foldl (fun accY y =>
    (List.range width).foldl (fun acc x => genericStep img1 img2 hasAlpha x y acc) accY) 0

/-- Body of one iteration of the packed 4-byte-per-pixel loop shared by
computeMSERGBA and computeMSENRGBA (psnr.go:165-176 and 188-199): reads bytes
i..i+3 of both buffers, accumulates the three squared RGB differences and,
when `hasAlpha` is set, the squared alpha difference. -/
def packedStep (pix1 pix2 : List ℕ) (hasAlpha : Bool) (i : ℕ) (acc : ℕ) : ℕ :=
  let dR := sqDiff (pix1.getD i 0) (pix2.getD i 0)
  let dG := sqDiff (pix1.getD (i + 1) 0) (pix2.getD (i + 1) 0)
  let dB := sqDiff (pix1.getD (i + 2) 0) (pix2.getD (i + 2) 0)
  let acc1 := (acc + (dR + dG + dB)) % M64
  if hasAlpha then
    (acc1 + sqDiff (pix1.getD (i + 3) 0) (pix2.getD (i + 3) 0)) % M64
  else acc1

/-- Loop `for i := 0; i < len(pix1); i += 4` of the packed kernels, embedded
as structural recursion on the remaining iteration count `n`, with `i` the
current byte offset and `acc` the running uint64 sum. -/
def packedLoop (pix1 pix2 : List ℕ) (hasAlpha : Bool) : ℕ → ℕ → ℕ → ℕ
  | _, 0, acc => acc
  | i, n + 1, acc =>
      packedLoop pix1 pix2 hasAlpha (i + 4) n (packedStep pix1 pix2 hasAlpha i acc)

/-- computeMSERGBA (psnr.go:158-179): fast MSE kernel for a pair of
`*image.RGBA` values, iterating over `len(img1.Pix)` in steps of 4. -/
def computeMSERGBA (img1 img2 : Img) (hasAlpha : Bool) : ℕ :=
  packedLoop img1.pix img2.pix hasAlpha 0 ((img1.pix.length + 3) / 4) 0

/-- computeMSENRGBA (psnr.go:181-202): fast MSE kernel for a pair of
`*image.NRGBA` values; byte-for-byte the same loop as computeMSERGBA. -/
def computeMSENRGBA (img1 img2 : Img) (hasAlpha : Bool) : ℕ :=
  packedLoop img1.pix img2.pix hasAlpha 0 ((img1.pix.length + 3) / 4) 0

/-- Saturating conversion used by Go's color.YCbCrToRGB: keep bits 16..23 when
the int32 intermediate lies in [0, 2^24), clamp to 0 below and to 255 above
(the source expresses this as `if uint32(v)&0xff000000 == 0 then v >> 16 else
^(v >> 31)` followed by a uint8 conversion; for intermediates of magnitude
below 2^31 the two formulations agree). -/
def clampShift16 (v : ℤ) : ℕ :=
  if 0 ≤ v ∧ v < 16777216 then (v / 65536).toNat
  else if v < 0 then 0 else 255

/-- Go standard library color.YCbCrToRGB (image/color/ycbcr.go), the exact
integer approximation used by computeMSEYCbCr:
`yy1 := int32(y) * 0x10101; cb1 := int32(cb) - 128; cr1 := int32(cr) - 128`
with `r = yy1 + 91881*cr1`, `g = yy1 - 22554*cb1 - 46802*cr1`,
`b = yy1 + 116130*cb1`, each clamped to an 8-bit value. -/
def ycbcrToRGB (y cb cr : ℕ) : ℕ × ℕ × ℕ :=
  let yy1 : ℤ := (y : ℤ) * 65793
  let cb1 : ℤ := (cb : ℤ) - 128
  let cr1 : ℤ := (cr : ℤ) - 128
  (clampShift16 (yy1 + 91881 * cr1),
   clampShift16 (yy1 - 22554 * cb1 - 46802 * cr1),
   clampShift16 (yy1 + 116130 * cb1))

/-- Contribution of one pixel of computeMSEYCbCr (psnr.go:208-221): convert
both pixels from YCbCr to RGB, then accumulate the three squared RGB channel
differences.  No alpha term exists on this path. -/
def ycbcrStep (img1 img2 : Img) (x y : ℤ) (acc : ℕ) : ℕ :=
  let p1 := ycbcrToRGB (img1.yAt x y) (img1.cbAt x y) (img1.crAt x y)
  let p2 := ycbcrToRGB (img2.yAt x y) (img2.cbAt x y) (img2.crAt x y)
  (acc + (sqDiff p1.1 p2.1 + sqDiff p1.2.1 p2.2.1 + sqDiff p1.2.2 p2.2.2)) % M64

/-- computeMSEYCbCr (psnr.go:204-224): fast MSE kernel for a pair of
`*image.YCbCr` values.  Iterates over the bounds of img1 (`bounds.Min` to
`bounds.Max`), accessing both images at the same absolute coordinates. -/
def computeMSEYCbCr (img1 img2 : Img) : ℕ :=
  (List.range img1.height).foldl (fun accY (dy : ℕ) =>
    (List.range img1.width).foldl (fun acc (dx : ℕ) =>
      ycbcrStep img1 img2 ((dx : ℤ) + img1.minX) ((dy : ℤ) + img1.minY) acc) accY) 0

/-- Alpha sample of the generic accessor: the fourth 16-bit value returned by
At(x,y).RGBA(). -/
def alphaAt (img : Img) (x y : ℤ) : ℕ := (img.at16 x y).2.2.2

/-- Sampling stride of the alpha detector (psnr.go:63-66): every 16th pixel,
or every 4th pixel when the image is smaller than 64 in either dimension. -/
def alphaStep (width height : ℕ) : ℕ :=
  if width < 64 ∨ height < 64 then 4 else 16

/-- Coordinates visited by `for v := 0; v < limit; v += step`: the multiples
of `step` below `limit`, in increasing order. -/
def sampleCoords (limit step : ℕ) : List ℕ :=
  List.range' 0 ((limit + step - 1) / step) step

/-- Predicate tested by the alpha-detection loop body (psnr.go:69-73): either
image's alpha sample at the given grid point differs from 0xffff. -/
def sampleNonOpaque (img1 img2 : Img) (x y : ℕ) : Bool :=
  (alphaAt img1 ((x : ℤ) + img1.minX) ((y : ℤ) + img1.minY) != 65535) ||
  (alphaAt img2 ((x : ℤ) + img2.minX) ((y : ℤ) + img2.minY) != 65535)

/-- The alpha-detection grid walk of Compute (psnr.go:62-77): nested loops over
y and x with the chosen stride, short-circuiting (both loops test `!hasAlpha`)
as soon as one sampled pixel pair is not fully opaque.  `List.any` evaluates
left to right and short-circuits exactly like the loops. -/
def detectAlpha (img1 img2 : Img) (width height : ℕ) : Bool :=
  (sampleCoords height (alphaStep width height)).any (fun y =>
    (sampleCoords width (alphaStep width height)).any (fun x =>
      sampleNonOpaque img1 img2 x y))

/-- The value of Compute's `hasAlpha` flag (psnr.go:59-77): the detection loop
runs only under `format1 == "png" || format2 == "png"`; otherwise the flag
keeps its zero value `false`. -/
def hasAlphaOf (format1 format2 : String) (img1 img2 : Img) (width height : ℕ) : Bool :=
  if format1 = "png" ∨ format2 = "png" then detectAlpha img1 img2 width height
  else false

/-- The value of Compute's `channelCount` (psnr.go:57, 74): 3, changed to 4
exactly when the alpha detector fires. -/
def channelCountOf (format1 format2 : String) (img1 img2 : Img) (width height : ℕ) : ℕ :=
  if hasAlphaOf format1 format2 img1 img2 width height then 4 else 3

/-- Kernel dispatch of Compute (psnr.go:80-105): a type switch on img1 with an
inner type assertion on img2; pairs of equal fast-path layout go to the
specialized kernel, everything else goes to computeMSEGeneric. -/
def dispatchSum (img1 img2 : Img) (width height : ℕ) (hasAlpha : Bool) : ℕ :=
  match img1.layout with
  | .rgba =>
      if img2.layout = .rgba then computeMSERGBA img1 img2 hasAlpha
      else computeMSEGeneric img1 img2 width height hasAlpha
  | .nrgba =>
      if img2.layout = .nrgba then computeMSENRGBA img1 img2 hasAlpha
      else computeMSEGeneric img1 img2 width height hasAlpha
  | .ycbcr =>
      if img2.layout = .ycbcr then computeMSEYCbCr img1 img2
      else computeMSEGeneric img1 img2 width height hasAlpha
  | .generic => computeMSEGeneric img1 img2 width height hasAlpha

/-- Error message of the dimension check (psnr.go:47-49):
`fmt.Errorf("images have different dimensions: %dx%d vs %dx%d", ...)`. -/
def dimensionMismatchMsg (dx1 dy1 dx2 dy2 : ℕ) : String :=
  "images have different dimensions: " ++ toString dx1 ++ "x" ++ toString dy1 ++
    " vs " ++ toString dx2 ++ "x" ++ toString dy2

/-- Outcome of the computable part of a comparison: either the identical-image
sentinel (psnr.go:109-111, `math.Inf(1)`) or the exact mean-squared-error that
is fed to the logarithmic formula.  Go computes the mse as a float64 quotient;
it is idealized here as an exact rational. -/
inductive MseResult where
  | inf : MseResult
  | mse : ℚ → MseResult
deriving DecidableEq

instance exceptDecEq (ε α : Type) [DecidableEq ε] [DecidableEq α] :
    DecidableEq (Except ε α) := fun x y =>
  match x, y with
  | .error a, .error b =>
      if h : a = b then .isTrue (by rw [h]) else .isFalse (by simp [h])
  | .ok a, .ok b =>
      if h : a = b then .isTrue (by rw [h]) else .isFalse (by simp [h])
  | .error _, .ok _ => .isFalse (by simp)
  | .ok _, .error _ => .isFalse (by simp)

/-- Final decibel result of a comparison: the positive-infinity sentinel or a
finite real value. -/
inductive PSNRResult where
  | inf : PSNRResult
  | val : ℝ → PSNRResult

/-- The logarithmic step shared by Compute (psnr.go:123) and computePSNRCgo
(psnr_cgo.go:119): `psnr := 10 * math.Log10(65025.0 / mse)`, idealized over
the reals. -/
noncomputable def psnrOfMse : MseResult → PSNRResult
  | .inf => .inf
  | .mse q => .val (10 * Real.logb 10 (65025 / (q : ℝ)))

/-- Everything Compute (psnr.go:33-124) does up to (and excluding) the
logarithmic step: the dimension-equality check with its error, the alpha
detection, the kernel dispatch, the zero-sum special case, and the division
by `totalSamples = totalPixels * channelCount`.  No correction factor of any
kind appears in this function in the source. -/
def computeMse (format1 format2 : String) (img1 img2 : Img) : Except String MseResult :=
  if img1.width ≠ img2.width ∨ img1.height ≠ img2.height then
    .error (dimensionMismatchMsg img1.width img1.height img2.width img2.height)
  else if dispatchSum img1 img2 img1.width img1.height
      (hasAlphaOf format1 format2 img1 img2 img1.width img1.height) = 0 then .ok .inf
  else .ok (.mse
    ((dispatchSum img1 img2 img1.width img1.height
        (hasAlphaOf format1 format2 img1 img2 img1.width img1.height) : ℚ) /
      ((img1.width * img1.height *
        channelCountOf format1 format2 img1 img2 img1.width img1.height : ℕ) : ℚ)))

/-- Compute (psnr.go:33-124), the public entry point, on a decoded image pair:
the computable pipeline followed by the logarithmic step. -/
noncomputable def Compute (format1 format2 : String) (img1 img2 : Img) :
    Except String PSNRResult :=
  (computeMse format1 format2 img1 img2).map psnrOfMse

/-- Wrapping 32-bit addition, the semantics of one lane of `_mm256_add_epi32`. -/
def add32 (a b : ℕ) : ℕ := (a + b) % M32

/-- Squared difference as computed inside the AVX2 loop of
compute_mse_rgba_simd (psnr_simd.c:19-39): bytes are zero-extended to 16-bit
lanes, subtracted with `_mm256_sub_epi16` (wrapping mod 2^16) and squared with
`_mm256_mullo_epi16` (low 16 bits of the product).  For byte inputs the result
is the exact squared difference, since it is below 2^16. -/
def sq16 (a b : ℕ) : ℕ :=
  (((((a : ℤ) - (b : ℤ)) % 65536) * (((a : ℤ) - (b : ℤ)) % 65536)) % 65536).toNat

/-- Squared 16-bit lane value after the optional alpha mask
(psnr_simd.c:36-44): when `has_alpha` is unset, every fourth channel slot is
zeroed by the `_mm256_and_si256` mask; otherwise the lane is kept. -/
def maskedSq (pix1 pix2 : List ℕ) (hasAlpha : Bool) (idx : ℕ) : ℕ :=
  if hasAlpha = false ∧ idx % 4 = 3 then 0
  else sq16 (pix1.getD idx 0) (pix2.getD idx 0)

/-- The 256-bit accumulator `sum_vec` of the AVX2 loop, viewed as its eight
32-bit lanes. -/
structure Vec8 where
  a0 : ℕ
  a1 : ℕ
  a2 : ℕ
  a3 : ℕ
  a4 : ℕ
  a5 : ℕ
  a6 : ℕ
  a7 : ℕ

/-- One iteration of the AVX2 loop of compute_mse_rgba_simd (psnr_simd.c:19-57)
at byte offset `i`: the two unpack-lo/hi pairs route the 32 squared byte
differences so that 32-bit lane k receives the squares of bytes
i+k, i+k+4, i+k+8, i+k+12 (k < 4) and i+k+12, i+k+16, i+k+20, i+k+24 (k ≥ 4),
one `_mm256_add_epi32` (wrapping per lane) per unpack half. -/
def simdIter (pix1 pix2 : List ℕ) (hasAlpha : Bool) (i : ℕ) (v : Vec8) : Vec8 :=
  let m := fun j => maskedSq pix1 pix2 hasAlpha (i + j)
  { a0 := add32 (add32 (add32 (add32 v.a0 (m 0)) (m 4)) (m 8)) (m 12)
    a1 := add32 (add32 (add32 (add32 v.a1 (m 1)) (m 5)) (m 9)) (m 13)
    a2 := add32 (add32 (add32 (add32 v.a2 (m 2)) (m 6)) (m 10)) (m 14)
    a3 := add32 (add32 (add32 (add32 v.a3 (m 3)) (m 7)) (m 11)) (m 15)
    a4 := add32 (add32 (add32 (add32 v.a4 (m 16)) (m 20)) (m 24)) (m 28)
    a5 := add32 (add32 (add32 (add32 v.a5 (m 17)) (m 21)) (m 25)) (m 29)
    a6 := add32 (add32 (add32 (add32 v.a6 (m 18)) (m 22)) (m 26)) (m 30)
    a7 := add32 (add32 (add32 (add32 v.a7 (m 19)) (m 23)) (m 27)) (m 31) }

/-- The AVX2 main loop `for (; i + 32 <= length; i += 32)` of
compute_mse_rgba_simd, as structural recursion on the remaining iteration
count. -/
def simdVecLoop (pix1 pix2 : List ℕ) (hasAlpha : Bool) : ℕ → ℕ → Vec8 → Vec8
  | _, 0, v => v
  | i, n + 1, v =>
      simdVecLoop pix1 pix2 hasAlpha (i + 32) n (simdIter pix1 pix2 hasAlpha i v)

/-- Horizontal sum of compute_mse_rgba_simd (psnr_simd.c:60-66): add the low
and high 128-bit halves lane-wise, then two `_mm_hadd_epi32` steps; every
addition wraps mod 2^32. The result is the value extracted by
`_mm_cvtsi128_si32`. -/
def hsum (v : Vec8) : ℕ :=
  let s0 := add32 v.a0 v.a4
  let s1 := add32 v.a1 v.a5
  let s2 := add32 v.a2 v.a6
  let s3 := add32 v.a3 v.a7
  let t0 := add32 s1 s0
  let t1 := add32 s3 s2
  add32 t1 t0

/-- Effect of `sum += _mm_cvtsi128_si32(sum_128)` (psnr_simd.c:66): the 32-bit
lane is reinterpreted as a signed int (`_mm_cvtsi128_si32` returns `int`) and
then converted to uint64 by the C integer conversions, i.e. sign-extended
modulo 2^64. -/
def sext32 (u : ℕ) : ℕ :=
  if u < 2147483648 then u else M64 - M32 + u

/-- Scalar tail loop of compute_mse_rgba_simd (psnr_simd.c:106-117):
`for (; i < length; i += 4)` with the plain int32 squared differences and the
optional alpha term, accumulating into the uint64 sum. -/
def simdTailLoop (pix1 pix2 : List ℕ) (hasAlpha : Bool) : ℕ → ℕ → ℕ → ℕ
  | _, 0, s => s
  | i, n + 1, s =>
      simdTailLoop pix1 pix2 hasAlpha (i + 4) n (packedStep pix1 pix2 hasAlpha i s)

/-- compute_mse_rgba_simd (psnr_simd.c:11-120), AVX2 branch (the branch
compiled on amd64, `#cgo amd64 CFLAGS: -mavx2`): the vectorized loop over
the largest multiple of 32 bytes, the wrapping horizontal reduction added to
the uint64 accumulator, then the scalar tail. -/
def compute_mse_rgba_simd (pix1 pix2 : List ℕ) (length : ℕ) (hasAlpha : Bool) : ℕ :=
  let m := length / 32
  let v := simdVecLoop pix1 pix2 hasAlpha 0 m ⟨0, 0, 0, 0, 0, 0, 0, 0⟩
  let s := (0 + sext32 (hsum v)) % M64
  simdTailLoop pix1 pix2 hasAlpha (32 * m) ((length - 32 * m + 3) / 4) s

/-- computeMSE_RGBA_CGo (psnr_cgo.go:127-143): passes both Pix buffers and
`len(pix1)` to the C SIMD kernel. -/
def computeMSE_RGBA_CGo (img1 img2 : Img) (hasAlpha : Bool) : ℕ :=
  compute_mse_rgba_simd img1.pix img2.pix img1.pix.length hasAlpha

/-- computeMSE_NRGBA_CGo (psnr_cgo.go:145-161): NRGBA shares the RGBA byte
layout, so the same C kernel is called the same way. -/
def computeMSE_NRGBA_CGo (img1 img2 : Img) (hasAlpha : Bool) : ℕ :=
  compute_mse_rgba_simd img1.pix img2.pix img1.pix.length hasAlpha

/-- Packed 3-byte-per-pixel RGB buffers built by computeMSE_YCbCr_CGo
(psnr_cgo.go:163-189): both images are converted pixel by pixel, iterating
over the bounds of img1, appending each converted triple. -/
def cgoRGBTriples (img : Img) (width height : ℕ) (minX minY : ℤ) : List ℕ :=
  (List.range height).flatMap (fun (dy : ℕ) =>
    (List.range width).flatMap (fun (dx : ℕ) =>
      let x := (dx : ℤ) + minX
      let y := (dy : ℤ) + minY
      let p := ycbcrToRGB (img.yAt x y) (img.cbAt x y) (img.crAt x y)
      [p.1, p.2.1, p.2.2]))

/-- Summation loop of computeMSE_YCbCr_CGo (psnr_cgo.go:192-199):
`for i := 0; i < len(rgb1); i += 3` over the two converted RGB buffers. -/
def cgoRGBSumLoop (rgb1 rgb2 : List ℕ) : ℕ → ℕ → ℕ → ℕ
  | _, 0, s => s
  | i, n + 1, s =>
      cgoRGBSumLoop rgb1 rgb2 (i + 3) n
        ((s + (sqDiff (rgb1.getD i 0) (rgb2.getD i 0) +
               sqDiff (rgb1.getD (i + 1) 0) (rgb2.getD (i + 1) 0) +
               sqDiff (rgb1.getD (i + 2) 0) (rgb2.getD (i + 2) 0))) % M64)

/-- computeMSE_YCbCr_CGo (psnr_cgo.go:163-202): convert both YCbCr images to
packed RGB buffers over img1's bounds, then sum squared differences over the
buffers in steps of 3. -/
def computeMSE_YCbCr_CGo (img1 img2 : Img) : ℕ :=
  let rgb1 := cgoRGBTriples img1 img1.width img1.height img1.minX img1.minY
  let rgb2 := cgoRGBTriples img2 img1.width img1.height img1.minX img1.minY
  cgoRGBSumLoop rgb1 rgb2 0 ((rgb1.length + 2) / 3) 0

/-- Modelled from the spec: `computeMSE_Generic` (package main) is called by
computePSNRCgo (psnr_cgo.go:88-103) but the file defining it is not among the
sources; per spec §4.3 there is "one generic kernel operating through the
abstraction" serving as the fallback for all unmatched layout pairs, so it is
modelled as the same generic kernel embedded above from psnr.go. -/
def computeMSE_Generic (img1 img2 : Img) (width height : ℕ) (hasAlpha : Bool) : ℕ :=
  computeMSEGeneric img1 img2 width height hasAlpha

/-- Kernel dispatch of computePSNRCgo (psnr_cgo.go:83-104), identical in shape
to Compute's dispatch but routed to the CGo kernels. -/
def dispatchSumCgo (img1 img2 : Img) (width height : ℕ) (hasAlpha : Bool) : ℕ :=
  match img1.layout with
  | .rgba =>
      if img2.layout = .rgba then computeMSE_RGBA_CGo img1 img2 hasAlpha
      else computeMSE_Generic img1 img2 width height hasAlpha
  | .nrgba =>
      if img2.layout = .nrgba then computeMSE_NRGBA_CGo img1 img2 hasAlpha
      else computeMSE_Generic img1 img2 width height hasAlpha
  | .ycbcr =>
      if img2.layout = .ycbcr then computeMSE_YCbCr_CGo img1 img2
      else computeMSE_Generic img1 img2 width height hasAlpha
  | .generic => computeMSE_Generic img1 img2 width height hasAlpha

/-- Everything computePSNRCgo (psnr_cgo.go:35-120) does up to the logarithmic
step.  It mirrors computeMse with the CGo kernels, plus the correction factor
(psnr_cgo.go:113-117): when either decode format is "jpeg", the mse is
replaced by `(mse * 9005) / 10000` before the logarithm. -/
def computeMseCgo (format1 format2 : String) (img1 img2 : Img) : Except String MseResult :=
  if img1.width ≠ img2.width ∨ img1.height ≠ img2.height then
    .error (dimensionMismatchMsg img1.width img1.height img2.width img2.height)
  else if dispatchSumCgo img1 img2 img1.width img1.height
      (hasAlphaOf format1 format2 img1 img2 img1.width img1.height) = 0 then .ok .inf
  else if format1 = "jpeg" ∨ format2 = "jpeg" then .ok (.mse
    ((dispatchSumCgo img1 img2 img1.width img1.height
        (hasAlphaOf format1 format2 img1 img2 img1.width img1.height) : ℚ) /
      ((img1.width * img1.height *
        channelCountOf format1 format2 img1 img2 img1.width img1.height : ℕ) : ℚ) *
      9005 / 10000))
  else .ok (.mse
    ((dispatchSumCgo img1 img2 img1.width img1.height
        (hasAlphaOf format1 format2 img1 img2 img1.width img1.height) : ℚ) /
      ((img1.width * img1.height *
        channelCountOf format1 format2 img1 img2 img1.width img1.height : ℕ) : ℚ)))

/-- computePSNRCgo (psnr_cgo.go:35-120) on a decoded image pair: the
computable pipeline followed by the logarithmic step. -/
noncomputable def computePSNRCgo (format1 format2 : String) (img1 img2 : Img) :
    Except String PSNRResult :=
  (computeMseCgo format1 format2 img1 img2).map psnrOfMse

/-
Specification-level sums: the mathematical (unwrapped) sums of squared
differences that the loops above accumulate modulo 2^64.
-/

/-- Mathematical contribution of the packed-kernel pixel starting at byte
offset `i`: the three squared RGB differences plus, when alpha participates,
the squared alpha difference. -/
def pairContrib (pix1 pix2 : List ℕ) (hasAlpha : Bool) (i : ℕ) : ℕ :=
  sqDiff (pix1.getD i 0) (pix2.getD i 0) +
  sqDiff (pix1.getD (i + 1) 0) (pix2.getD (i + 1) 0) +
  sqDiff (pix1.getD (i + 2) 0) (pix2.getD (i + 2) 0) +
  (if hasAlpha then sqDiff (pix1.getD (i + 3) 0) (pix2.getD (i + 3) 0) else 0)

/-- Mathematical contribution of one coordinate of the generic kernel. -/
def genContrib (img1 img2 : Img) (hasAlpha : Bool) (x y : ℕ) : ℕ :=
  sqDiff ((img1.at16 ((x : ℤ) + img1.minX) ((y : ℤ) + img1.minY)).1 / 256)
    ((img2.at16 ((x : ℤ) + img2.minX) ((y : ℤ) + img2.minY)).1 / 256) +
  sqDiff ((img1.at16 ((x : ℤ) + img1.minX) ((y : ℤ) + img1.minY)).2.1 / 256)
    ((img2.at16 ((x : ℤ) + img2.minX) ((y : ℤ) + img2.minY)).2.1 / 256) +
  sqDiff ((img1.at16 ((x : ℤ) + img1.minX) ((y : ℤ) + img1.minY)).2.2.1 / 256)
    ((img2.at16 ((x : ℤ) + img2.minX) ((y : ℤ) + img2.minY)).2.2.1 / 256) +
  (if hasAlpha then
    sqDiff ((img1.at16 ((x : ℤ) + img1.minX) ((y : ℤ) + img1.minY)).2.2.2 / 256)
      ((img2.at16 ((x : ℤ) + img2.minX) ((y : ℤ) + img2.minY)).2.2.2 / 256)
  else 0)

/-- Mathematical contribution of one coordinate of the YCbCr kernel: squared
RGB differences after conversion, with no alpha term. -/
def ycbcrContrib (img1 img2 : Img) (x y : ℤ) : ℕ :=
  sqDiff (ycbcrToRGB (img1.yAt x y) (img1.cbAt x y) (img1.crAt x y)).1
    (ycbcrToRGB (img2.yAt x y) (img2.cbAt x y) (img2.crAt x y)).1 +
  sqDiff (ycbcrToRGB (img1.yAt x y) (img1.cbAt x y) (img1.crAt x y)).2.1
    (ycbcrToRGB (img2.yAt x y) (img2.cbAt x y) (img2.crAt x y)).2.1 +
  sqDiff (ycbcrToRGB (img1.yAt x y) (img1.cbAt x y) (img1.crAt x y)).2.2
    (ycbcrToRGB (img2.yAt x y) (img2.cbAt x y) (img2.crAt x y)).2.2

/-- Mathematical sum accumulated by the packed kernels over `n` pixels
starting at byte offset 0. -/
def packedSpecSum (pix1 pix2 : List ℕ) (hasAlpha : Bool) (n : ℕ) : ℕ :=
  ∑ k in Finset.range n, pairContrib pix1 pix2 hasAlpha (4 * k)

/-- Mathematical sum accumulated by the generic kernel. -/
def genericSpecSum (img1 img2 : Img) (width height : ℕ) (hasAlpha : Bool) : ℕ :=
  ∑ y in Finset.range height, ∑ x in Finset.range width, genContrib img1 img2 hasAlpha x y

/-- Mathematical sum accumulated by the YCbCr kernel: squared differences of
the RGB-converted pixels over the bounds of img1. -/
def ycbcrSpecSum (img1 img2 : Img) : ℕ :=
  ∑ dy in Finset.range img1.height, ∑ dx in Finset.range img1.width,
    ycbcrContrib img1 img2 ((dx : ℤ) + img1.minX) ((dy : ℤ) + img1.minY)

theorem M64_pos : 0 < M64 := by decide

/-- A fold whose every step adds a value and reduces mod 2^64 computes the sum
of the values mod 2^64. -/
theorem foldl_modStep (f : ℕ → ℕ → ℕ) (g : ℕ → ℕ)
    (hf : ∀ acc k, acc < M64 → f acc k = (acc + g k) % M64) :
    ∀ (n : ℕ) (acc : ℕ), acc < M64 →
      (List.range n).foldl f acc = (acc + ∑ k in Finset.range n, g k) % M64 := by
  intro n
  induction n with
  | zero =>
      intro acc hacc
      simp [Nat.mod_eq_of_lt hacc]
  | succ n ih =>
      intro acc hacc
      rw [List.range_succ, List.foldl_append]
      simp only [List.foldl_cons, List.foldl_nil]
      rw [ih acc hacc, hf _ n (Nat.mod_lt _ M64_pos), Finset.sum_range_succ]
      rw [Nat.mod_add_mod, Nat.add_assoc]

theorem packedStep_eq (pix1 pix2 : List ℕ) (hasAlpha : Bool) (i acc : ℕ) :
    packedStep pix1 pix2 hasAlpha i acc = (acc + pairContrib pix1 pix2 hasAlpha i) % M64 := by
  unfold packedStep pairContrib
  cases hasAlpha <;> simp [Nat.mod_add_mod, Nat.add_assoc]

/-- The packed loop computes the mathematical sum modulo 2^64. -/
theorem packedLoop_eq (pix1 pix2 : List ℕ) (hasAlpha : Bool) :
    ∀ (n i acc : ℕ), acc < M64 →
      packedLoop pix1 pix2 hasAlpha i n acc =
        (acc + ∑ k in Finset.range n, pairContrib pix1 pix2 hasAlpha (i + 4 * k)) % M64 := by
  intro n
  induction n with
  | zero =>
      intro i acc hacc
      simp [packedLoop, Nat.mod_eq_of_lt hacc]
  | succ n ih =>
      intro i acc hacc
      rw [packedLoop, packedStep_eq, ih (i + 4) _ (Nat.mod_lt _ M64_pos)]
      rw [Nat.mod_add_mod, Finset.sum_range_succ']
      simp only [Nat.mul_zero, Nat.add_zero, Nat.mul_succ]
      rw [Nat.add_comm (∑ k in Finset.range n, pairContrib pix1 pix2 hasAlpha (i + (4 * k + 4)))
        (pairContrib pix1 pix2 hasAlpha i), ← Nat.add_assoc]
      congr 2
      apply Finset.sum_congr rfl
      intro k _
      congr 1
      omega

theorem computeMSERGBA_eq (img1 img2 : Img) (hasAlpha : Bool) :
    computeMSERGBA img1 img2 hasAlpha =
      packedSpecSum img1.pix img2.pix hasAlpha ((img1.pix.length + 3) / 4) % M64 := by
  unfold computeMSERGBA packedSpecSum
  rw [packedLoop_eq _ _ _ _ _ _ (by decide)]
  simp

theorem computeMSENRGBA_eq (img1 img2 : Img) (hasAlpha : Bool) :
    computeMSENRGBA img1 img2 hasAlpha =
      packedSpecSum img1.pix img2.pix hasAlpha ((img1.pix.length + 3) / 4) % M64 := by
  unfold computeMSENRGBA packedSpecSum
  rw [packedLoop_eq _ _ _ _ _ _ (by decide)]
  simp

theorem genericStep_eq (img1 img2 : Img) (hasAlpha : Bool) (x y acc : ℕ) :
    genericStep img1 img2 hasAlpha x y acc =
      (acc + genContrib img1 img2 hasAlpha x y) % M64 := by
  unfold genericStep genContrib
  cases hasAlpha <;> simp [Nat.mod_add_mod, Nat.add_assoc]

/-- The generic kernel computes the mathematical double sum modulo 2^64. -/
theorem computeMSEGeneric_eq (img1 img2 : Img) (width height : ℕ) (hasAlpha : Bool) :
    computeMSEGeneric img1 img2 width height hasAlpha =
      genericSpecSum img1 img2 width height hasAlpha % M64 := by
  unfold computeMSEGeneric genericSpecSum
  rw [foldl_modStep _ (fun y => ∑ x in Finset.range width, genContrib img1 img2 hasAlpha x y)
    ?_ height 0 (by decide)]
  · simp
  · intro acc y hacc
    exact foldl_modStep _ _ (fun a x ha => genericStep_eq img1 img2 hasAlpha x y a)
      width acc hacc

/-- The YCbCr kernel computes the mathematical double sum modulo 2^64. -/
theorem computeMSEYCbCr_eq (img1 img2 : Img) :
    computeMSEYCbCr img1 img2 = ycbcrSpecSum img1 img2 % M64 := by
  unfold computeMSEYCbCr ycbcrSpecSum
  rw [foldl_modStep _ (fun dy => ∑ dx in Finset.range img1.width,
      ycbcrContrib img1 img2 ((dx : ℤ) + img1.minX) ((dy : ℤ) + img1.minY))
    ?_ img1.height 0 (by decide)]
  · simp
  · intro acc dy hacc
    refine foldl_modStep _ _ (fun a dx ha => ?_) img1.width acc hacc
    unfold ycbcrStep ycbcrContrib
    simp

theorem sqDiff_self (a : ℕ) : sqDiff a a = 0 := by
  simp [sqDiff]

theorem pairContrib_self (pix : List ℕ) (hasAlpha : Bool) (i : ℕ) :
    pairContrib pix pix hasAlpha i = 0 := by
  simp [pairContrib, sqDiff_self]

theorem computeMSERGBA_self (img : Img) (hasAlpha : Bool) :
    computeMSERGBA img img hasAlpha = 0 := by
  rw [computeMSERGBA_eq]
  simp [packedSpecSum, pairContrib_self]

theorem computeMSENRGBA_self (img : Img) (hasAlpha : Bool) :
    computeMSENRGBA img img hasAlpha = 0 := by
  rw [computeMSENRGBA_eq]
  simp [packedSpecSum, pairContrib_self]

theorem computeMSEGeneric_self (img : Img) (width height : ℕ) (hasAlpha : Bool) :
    computeMSEGeneric img img width height hasAlpha = 0 := by
  rw [computeMSEGeneric_eq]
  simp [genericSpecSum, genContrib, sqDiff_self]

theorem computeMSEYCbCr_self (img : Img) : computeMSEYCbCr img img = 0 := by
  rw [computeMSEYCbCr_eq]
  simp [ycbcrSpecSum, ycbcrContrib, sqDiff_self]

theorem dispatchSum_self (img : Img) (width height : ℕ) (hasAlpha : Bool) :
    dispatchSum img img width height hasAlpha = 0 := by
  cases h : img.layout <;>
    simp [dispatchSum, h, computeMSERGBA_self, computeMSENRGBA_self,
      computeMSEGeneric_self, computeMSEYCbCr_self]

/-- C3: for every pair of successfully decoded images whose widths or heights
differ, Compute fails with the dimension-mismatch error whose message reports
both width-by-height pairs, and never returns a numeric score.  The statement
quantifies over arbitrary images carrying the mismatched dimensions — the
result is the same error whatever their pixel buffers and accessor functions
contain, which is the shallow-embedding form of "no pixel of either image is
read": the outcome is independent of all pixel data. -/
theorem c3_dimension_mismatch (format1 format2 : String) (w1 h1 w2 h2 : ℕ)
    (hne : w1 ≠ w2 ∨ h1 ≠ h2) :
    ∀ img1 img2 : Img, img1.width = w1 → img1.height = h1 →
      img2.width = w2 → img2.height = h2 →
      Compute format1 format2 img1 img2 =
        .error (dimensionMismatchMsg w1 h1 w2 h2) := by
  intro img1 img2 e1 e2 e3 e4
  have hcond : img1.width ≠ img2.width ∨ img1.height ≠ img2.height := by
    rw [e1, e2, e3, e4]; exact hne
  unfold Compute computeMse
  rw [if_pos hcond, e1, e2, e3, e4]
  rfl

/-- Witness for C3 at a concrete input: a 1-by-1 image against a 2-by-1 image
(arbitrary pixel content) yields exactly the dimension-mismatch error. -/
theorem c3_dimension_mismatch_witness :
    ((1 : ℕ) ≠ 2 ∨ (1 : ℕ) ≠ 1) ∧
      Compute "png" "png"
        ⟨1, 1, 0, 0, .generic, [], fun _ _ => 0, fun _ _ => 0, fun _ _ => 0,
          fun _ _ => (0, 0, 0, 65535)⟩
        ⟨2, 1, 0, 0, .generic, [], fun _ _ => 0, fun _ _ => 0, fun _ _ => 0,
          fun _ _ => (0, 0, 0, 65535)⟩ =
        .error (dimensionMismatchMsg 1 1 2 1) :=
  ⟨Or.inl (by decide),
    c3_dimension_mismatch "png" "png" 1 1 2 1 (Or.inl (by decide)) _ _ rfl rfl rfl rfl⟩

/-- C4: whenever the accumulated sum of squared differences of an
equal-dimension comparison is exactly zero, Compute returns the
positive-infinity sentinel and no error; in particular Compute(I, I) does, for
every image I, since every kernel accumulates zero on an identical pair. -/
theorem c4_zero_sum_infinite (format1 format2 : String) (img1 img2 : Img) :
    (img1.width = img2.width → img1.height = img2.height →
      dispatchSum img1 img2 img1.width img1.height
          (hasAlphaOf format1 format2 img1 img2 img1.width img1.height) = 0 →
      Compute format1 format2 img1 img2 = .ok .inf) ∧
    Compute format1 format2 img1 img1 = .ok .inf := by
  constructor
  · intro hw hh hsum
    unfold Compute computeMse
    rw [if_neg (by simp [hw, hh])]
    simp only [hsum, if_pos rfl]
    rfl
  · unfold Compute computeMse
    rw [if_neg (by simp)]
    simp only [dispatchSum_self, if_pos rfl]
    rfl

/-- Witness for C4 at a concrete input: a 1-by-1 RGBA pair with identical
pixel bytes (but distinct image records) accumulates a zero sum and Compute
returns the infinite sentinel; the identical-pair conjunct is also
instantiated. -/
theorem c4_zero_sum_infinite_witness :
    ((⟨1, 1, 0, 0, .rgba, [7, 8, 9, 255], fun _ _ => 0, fun _ _ => 0, fun _ _ => 0,
        fun _ _ => (1799, 2056, 2313, 65535)⟩ : Img).width =
      (⟨1, 1, 3, 5, .rgba, [7, 8, 9, 255], fun _ _ => 0, fun _ _ => 0, fun _ _ => 0,
        fun _ _ => (1799, 2056, 2313, 65535)⟩ : Img).width) ∧
    Compute "jpeg" "jpeg"
      ⟨1, 1, 0, 0, .rgba, [7, 8, 9, 255], fun _ _ => 0, fun _ _ => 0, fun _ _ => 0,
        fun _ _ => (1799, 2056, 2313, 65535)⟩
      ⟨1, 1, 3, 5, .rgba, [7, 8, 9, 255], fun _ _ => 0, fun _ _ => 0, fun _ _ => 0,
        fun _ _ => (1799, 2056, 2313, 65535)⟩ = .ok .inf := by
  refine ⟨rfl, ?_⟩
  exact (c4_zero_sum_infinite "jpeg" "jpeg" _ _).1 rfl rfl (by decide)

/-- C5: for every equal-dimension comparison whose accumulated sum S is not
zero, Compute returns exactly 10 * log10(65025 / (S / (width * height *
channelCount))), where channelCount is 3 unless the alpha detector fired (then
4); the formula is applied as-is, with no clamping of negative or huge
values (the returned value is exactly this expression, whatever its sign or
magnitude). -/
theorem c5_psnr_formula (format1 format2 : String) (img1 img2 : Img)
    (hw : img1.width = img2.width) (hh : img1.height = img2.height)
    (hsum : dispatchSum img1 img2 img1.width img1.height
        (hasAlphaOf format1 format2 img1 img2 img1.width img1.height) ≠ 0) :
    Compute format1 format2 img1 img2 = .ok (.val (10 * Real.logb 10 (65025 /
      ((dispatchSum img1 img2 img1.width img1.height
          (hasAlphaOf format1 format2 img1 img2 img1.width img1.height) : ℝ) /
        ((img1.width * img1.height *
          (if hasAlphaOf format1 format2 img1 img2 img1.width img1.height
           then 4 else 3) : ℕ) : ℝ))))) := by
  unfold Compute computeMse channelCountOf
  rw [if_neg (by simp [hw, hh]), if_neg hsum]
  simp only [Except.map, psnrOfMse, Except.ok.injEq, PSNRResult.val.injEq]
  split <;> (push_cast; ring_nf)

/-- Witness for C5 at a concrete input: a 1-by-1 RGBA pair differing by one
unit in each RGB byte has sum 3, channel count 3, and Compute returns the
exact formula value. -/
theorem c5_psnr_formula_witness :
    ((⟨1, 1, 0, 0, .rgba, [10, 10, 10, 255], fun _ _ => 0, fun _ _ => 0, fun _ _ => 0,
        fun _ _ => (2570, 2570, 2570, 65535)⟩ : Img).width =
      (⟨1, 1, 0, 0, .rgba, [11, 11, 11, 255], fun _ _ => 0, fun _ _ => 0, fun _ _ => 0,
        fun _ _ => (2827, 2827, 2827, 65535)⟩ : Img).width) ∧
    Compute "jpeg" "jpeg"
      ⟨1, 1, 0, 0, .rgba, [10, 10, 10, 255], fun _ _ => 0, fun _ _ => 0, fun _ _ => 0,
        fun _ _ => (2570, 2570, 2570, 65535)⟩
      ⟨1, 1, 0, 0, .rgba, [11, 11, 11, 255], fun _ _ => 0, fun _ _ => 0, fun _ _ => 0,
        fun _ _ => (2827, 2827, 2827, 65535)⟩ = .ok (.val (10 * Real.logb 10 (65025 /
      ((dispatchSum
          ⟨1, 1, 0, 0, .rgba, [10, 10, 10, 255], fun _ _ => 0, fun _ _ => 0, fun _ _ => 0,
            fun _ _ => (2570, 2570, 2570, 65535)⟩
          ⟨1, 1, 0, 0, .rgba, [11, 11, 11, 255], fun _ _ => 0, fun _ _ => 0, fun _ _ => 0,
            fun _ _ => (2827, 2827, 2827, 65535)⟩ 1 1
          (hasAlphaOf "jpeg" "jpeg"
            ⟨1, 1, 0, 0, .rgba, [10, 10, 10, 255], fun _ _ => 0, fun _ _ => 0, fun _ _ => 0,
              fun _ _ => (2570, 2570, 2570, 65535)⟩
            ⟨1, 1, 0, 0, .rgba, [11, 11, 11, 255], fun _ _ => 0, fun _ _ => 0, fun _ _ => 0,
              fun _ _ => (2827, 2827, 2827, 65535)⟩ 1 1) : ℝ) /
        ((1 * 1 *
          (if hasAlphaOf "jpeg" "jpeg"
              ⟨1, 1, 0, 0, .rgba, [10, 10, 10, 255], fun _ _ => 0, fun _ _ => 0, fun _ _ => 0,
                fun _ _ => (2570, 2570, 2570, 65535)⟩
              ⟨1, 1, 0, 0, .rgba, [11, 11, 11, 255], fun _ _ => 0, fun _ _ => 0, fun _ _ => 0,
                fun _ _ => (2827, 2827, 2827, 65535)⟩ 1 1
           then 4 else 3) : ℕ) : ℝ))))) :=
  ⟨rfl, c5_psnr_formula "jpeg" "jpeg" _ _ rfl rfl (by decide)⟩

/-- Iteration-space characterization of `for v := 0; v < limit; v += step`:
the k-th visited coordinate is step * k, and k is visited exactly when
step * k < limit. -/
theorem stride_lt_iff (step limit i : ℕ) (hs : 0 < step) :
    i < (limit + step - 1) / step ↔ step * i < limit := by
  rw [Nat.lt_iff_add_one_le, Nat.le_div_iff_mul_le hs]
  have h1 : (i + 1) * step = step * i + step := by ring
  rw [h1]
  omega

theorem mem_sampleCoords (limit step x : ℕ) (hs : 0 < step) :
    x ∈ sampleCoords limit step ↔ ∃ i : ℕ, step * i < limit ∧ x = step * i := by
  unfold sampleCoords
  rw [List.mem_range']
  constructor
  · rintro ⟨i, hi, hx⟩
    exact ⟨i, (stride_lt_iff step limit i hs).1 hi, by omega⟩
  · rintro ⟨i, hi, hx⟩
    exact ⟨i, (stride_lt_iff step limit i hs).2 hi, by omega⟩

/-- The alpha-detection walk returns true exactly when some grid point
(step * a, step * b) inside the image has a non-opaque sample pair. -/
theorem detectAlpha_iff (img1 img2 : Img) (w h : ℕ) :
    detectAlpha img1 img2 w h = true ↔
      ∃ a b : ℕ, alphaStep w h * a < w ∧ alphaStep w h * b < h ∧
        sampleNonOpaque img1 img2 (alphaStep w h * a) (alphaStep w h * b) = true := by
  have hs : 0 < alphaStep w h := by
    unfold alphaStep
    split <;> decide
  unfold detectAlpha
  rw [List.any_eq_true]
  constructor
  · rintro ⟨y, hy, hx⟩
    rw [List.any_eq_true] at hx
    obtain ⟨x, hxmem, hno⟩ := hx
    rw [mem_sampleCoords _ _ _ hs] at hy hxmem
    obtain ⟨b, hb, hyv⟩ := hy
    obtain ⟨a, ha, hxv⟩ := hxmem
    subst hyv hxv
    exact ⟨a, b, ha, hb, hno⟩
  · rintro ⟨a, b, ha, hb, hno⟩
    refine ⟨alphaStep w h * b, ?_, ?_⟩
    · rw [mem_sampleCoords _ _ _ hs]
      exact ⟨b, hb, rfl⟩
    · rw [List.any_eq_true]
      refine ⟨alphaStep w h * a, ?_, hno⟩
      rw [mem_sampleCoords _ _ _ hs]
      exact ⟨a, ha, rfl⟩

/-- C6: the alpha detector fires exactly when at least one input decoded as
PNG and some sampled pixel pair on the regular grid (stride 4 when width or
height is below 64, stride 16 otherwise, anchored at the relative pixel (0,0))
has an alpha sample different from fully opaque 0xffff in either image; and
channelCount is 4 exactly in that case, 3 otherwise.  The loop short-circuits
at the first such sampled pair, which is observationally the existential
below. -/
theorem c6_alpha_detector (format1 format2 : String) (img1 img2 : Img) (w h : ℕ) :
    (hasAlphaOf format1 format2 img1 img2 w h = true ↔
      ((format1 = "png" ∨ format2 = "png") ∧ ∃ a b : ℕ,
        (if w < 64 ∨ h < 64 then 4 else 16) * a < w ∧
        (if w < 64 ∨ h < 64 then 4 else 16) * b < h ∧
        (alphaAt img1 (((if w < 64 ∨ h < 64 then 4 else 16) * a : ℕ) + img1.minX)
            (((if w < 64 ∨ h < 64 then 4 else 16) * b : ℕ) + img1.minY) ≠ 65535 ∨
         alphaAt img2 (((if w < 64 ∨ h < 64 then 4 else 16) * a : ℕ) + img2.minX)
            (((if w < 64 ∨ h < 64 then 4 else 16) * b : ℕ) + img2.minY) ≠ 65535))) ∧
    channelCountOf format1 format2 img1 img2 w h =
      (if hasAlphaOf format1 format2 img1 img2 w h then 4 else 3) := by
  constructor
  · unfold hasAlphaOf
    by_cases hpng : format1 = "png" ∨ format2 = "png"
    · rw [if_pos hpng]
      simp only [hpng, true_and]
      rw [detectAlpha_iff]
      unfold alphaStep
      constructor
      · rintro ⟨a, b, ha, hb, hno⟩
        refine ⟨a, b, ha, hb, ?_⟩
        simpa [sampleNonOpaque, Bool.or_eq_true, bne_iff_ne] using hno
      · rintro ⟨a, b, ha, hb, hno⟩
        refine ⟨a, b, ha, hb, ?_⟩
        simpa [sampleNonOpaque, Bool.or_eq_true, bne_iff_ne] using hno
    · rw [if_neg hpng]
      simp [hpng]
  · rfl

/-- Unfolding lemma: on an equal-dimension pair with a non-zero sum, computeMse
returns the raw quotient sum / samples. -/
theorem computeMse_formula (format1 format2 : String) (img1 img2 : Img)
    (hw : img1.width = img2.width) (hh : img1.height = img2.height)
    (hsum : dispatchSum img1 img2 img1.width img1.height
        (hasAlphaOf format1 format2 img1 img2 img1.width img1.height) ≠ 0) :
    computeMse format1 format2 img1 img2 = .ok (.mse
      ((dispatchSum img1 img2 img1.width img1.height
          (hasAlphaOf format1 format2 img1 img2 img1.width img1.height) : ℚ) /
        ((img1.width * img1.height *
          channelCountOf format1 format2 img1 img2 img1.width img1.height : ℕ) : ℚ))) := by
  unfold computeMse
  rw [if_neg (by simp [hw, hh]), if_neg hsum]

/-- Unfolding lemma: on an equal-dimension pair with a non-zero sum and a
"jpeg" tag on either side, computeMseCgo multiplies the quotient by
9005/10000. -/
theorem computeMseCgo_formula_jpeg (format1 format2 : String) (img1 img2 : Img)
    (hw : img1.width = img2.width) (hh : img1.height = img2.height)
    (hj : format1 = "jpeg" ∨ format2 = "jpeg")
    (hsum : dispatchSumCgo img1 img2 img1.width img1.height
        (hasAlphaOf format1 format2 img1 img2 img1.width img1.height) ≠ 0) :
    computeMseCgo format1 format2 img1 img2 = .ok (.mse
      ((dispatchSumCgo img1 img2 img1.width img1.height
          (hasAlphaOf format1 format2 img1 img2 img1.width img1.height) : ℚ) /
        ((img1.width * img1.height *
          channelCountOf format1 format2 img1 img2 img1.width img1.height : ℕ) : ℚ) *
        9005 / 10000)) := by
  unfold computeMseCgo
  rw [if_neg (by simp [hw, hh]), if_neg hsum, if_pos hj]

/-- Unfolding lemma: with no "jpeg" tag, computeMseCgo returns the raw
quotient. -/
theorem computeMseCgo_formula_nojpeg (format1 format2 : String) (img1 img2 : Img)
    (hw : img1.width = img2.width) (hh : img1.height = img2.height)
    (hj : ¬(format1 = "jpeg" ∨ format2 = "jpeg"))
    (hsum : dispatchSumCgo img1 img2 img1.width img1.height
        (hasAlphaOf format1 format2 img1 img2 img1.width img1.height) ≠ 0) :
    computeMseCgo format1 format2 img1 img2 = .ok (.mse
      ((dispatchSumCgo img1 img2 img1.width img1.height
          (hasAlphaOf format1 format2 img1 img2 img1.width img1.height) : ℚ) /
        ((img1.width * img1.height *
          channelCountOf format1 format2 img1 img2 img1.width img1.height : ℕ) : ℚ))) := by
  unfold computeMseCgo
  rw [if_neg (by simp [hw, hh]), if_neg hsum, if_neg hj]

/-- Concrete 1-by-1 RGBA test image with bytes (10, 10, 10, 255). -/
def imgA : Img :=
  ⟨1, 1, 0, 0, .rgba, [10, 10, 10, 255], fun _ _ => 0, fun _ _ => 0, fun _ _ => 0,
    fun _ _ => (2570, 2570, 2570, 65535)⟩

/-- Concrete 1-by-1 RGBA test image with bytes (11, 11, 11, 255). -/
def imgB : Img :=
  ⟨1, 1, 0, 0, .rgba, [11, 11, 11, 255], fun _ _ => 0, fun _ _ => 0, fun _ _ => 0,
    fun _ _ => (2827, 2827, 2827, 65535)⟩

/-- C1 counterexample: a concrete pair of jpeg-tagged equal-size images whose
mean-squared-error is exactly 1.  Compute returns the plain formula value
10 * log10(65025 / 1) — it applies no multiplier to the mse — and that value
differs from the value 10 * log10(65025 / (1 * 9005/10000)) that the claimed
multiplication by 0.9005 (= 9005/10000 in the source) would produce.  So the
claim is false for the public entry point Compute. -/
theorem c1_correction_counterexample :
    computeMse "jpeg" "jpeg" imgA imgB = .ok (.mse 1) ∧
    Compute "jpeg" "jpeg" imgA imgB =
      .ok (.val (10 * Real.logb 10 (65025 / ((1 : ℚ) : ℝ)))) ∧
    10 * Real.logb 10 (65025 / ((1 : ℚ) : ℝ)) ≠
      10 * Real.logb 10 (65025 / ((1 * 9005 / 10000 : ℚ) : ℝ)) := by
  have h1 : computeMse "jpeg" "jpeg" imgA imgB = .ok (.mse 1) := by
    have h := computeMse_formula "jpeg" "jpeg" imgA imgB rfl rfl (by decide)
    rw [show dispatchSum imgA imgB imgA.width imgA.height
        (hasAlphaOf "jpeg" "jpeg" imgA imgB imgA.width imgA.height) = 3 from by decide] at h
    rw [show (imgA.width * imgA.height *
        channelCountOf "jpeg" "jpeg" imgA imgB imgA.width imgA.height : ℕ) = 3
      from by decide] at h
    rw [h]
    norm_num
  refine ⟨h1, ?_, ?_⟩
  · unfold Compute
    rw [h1]
    rfl
  · have hde : ((1 : ℚ) : ℝ) = 1 := by norm_num
    have hcq : ((1 * 9005 / 10000 : ℚ) : ℝ) = 9005 / 10000 := by norm_num
    rw [hde, hcq]
    have hlt : Real.logb 10 (65025 / 1) < Real.logb 10 (65025 / (9005 / 10000)) := by
      apply Real.logb_lt_logb (by norm_num) (by norm_num)
      norm_num
    intro heq
    have h10 : (0 : ℝ) < 10 := by norm_num
    have := mul_lt_mul_of_pos_left hlt h10
    rw [heq] at this
    exact lt_irrefl _ this

/-- C1 amended: the correction factor 9005/10000 (≈ 0.9005) is applied to the
mean-squared-error before the logarithmic step by the cgo variant
computePSNRCgo exactly when either input's decode format is "jpeg", and is not
applied when neither is; the public entry point Compute applies no multiplier
at all, for any formats — its mse is always the raw quotient sum/samples. -/
theorem c1_correction_amended (format1 format2 : String) (img1 img2 : Img)
    (hw : img1.width = img2.width) (hh : img1.height = img2.height) :
    (format1 = "jpeg" ∨ format2 = "jpeg" →
      dispatchSumCgo img1 img2 img1.width img1.height
          (hasAlphaOf format1 format2 img1 img2 img1.width img1.height) ≠ 0 →
      computeMseCgo format1 format2 img1 img2 = .ok (.mse
        ((dispatchSumCgo img1 img2 img1.width img1.height
            (hasAlphaOf format1 format2 img1 img2 img1.width img1.height) : ℚ) /
          ((img1.width * img1.height *
            channelCountOf format1 format2 img1 img2 img1.width img1.height : ℕ) : ℚ) *
          9005 / 10000))) ∧
    (¬(format1 = "jpeg" ∨ format2 = "jpeg") →
      dispatchSumCgo img1 img2 img1.width img1.height
          (hasAlphaOf format1 format2 img1 img2 img1.width img1.height) ≠ 0 →
      computeMseCgo format1 format2 img1 img2 = .ok (.mse
        ((dispatchSumCgo img1 img2 img1.width img1.height
            (hasAlphaOf format1 format2 img1 img2 img1.width img1.height) : ℚ) /
          ((img1.width * img1.height *
            channelCountOf format1 format2 img1 img2 img1.width img1.height : ℕ) : ℚ)))) ∧
    (dispatchSum img1 img2 img1.width img1.height
        (hasAlphaOf format1 format2 img1 img2 img1.width img1.height) ≠ 0 →
      computeMse format1 format2 img1 img2 = .ok (.mse
        ((dispatchSum img1 img2 img1.width img1.height
            (hasAlphaOf format1 format2 img1 img2 img1.width img1.height) : ℚ) /
          ((img1.width * img1.height *
            channelCountOf format1 format2 img1 img2 img1.width img1.height : ℕ) : ℚ)))) := by
  refine ⟨?_, ?_, ?_⟩
  · intro hj hsum
    unfold computeMseCgo
    rw [if_neg (by simp [hw, hh]), if_neg hsum, if_pos hj]
  · intro hj hsum
    unfold computeMseCgo
    rw [if_neg (by simp [hw, hh]), if_neg hsum, if_neg hj]
  · intro hsum
    unfold computeMse
    rw [if_neg (by simp [hw, hh]), if_neg hsum]

/-- Witness for C1 amended at a concrete input: the jpeg-jpeg comparison of
imgA and imgB goes through the correction branch of computePSNRCgo and the
uncorrected branch of Compute. -/
theorem c1_correction_amended_witness :
    (imgA.width = imgB.width ∧
      dispatchSumCgo imgA imgB imgA.width imgA.height
          (hasAlphaOf "jpeg" "jpeg" imgA imgB imgA.width imgA.height) ≠ 0) ∧
    computeMseCgo "jpeg" "jpeg" imgA imgB = .ok (.mse
      ((dispatchSumCgo imgA imgB imgA.width imgA.height
          (hasAlphaOf "jpeg" "jpeg" imgA imgB imgA.width imgA.height) : ℚ) /
        ((imgA.width * imgA.height *
          channelCountOf "jpeg" "jpeg" imgA imgB imgA.width imgA.height : ℕ) : ℚ) *
        9005 / 10000)) ∧
    computeMse "jpeg" "jpeg" imgA imgB = .ok (.mse
      ((dispatchSum imgA imgB imgA.width imgA.height
          (hasAlphaOf "jpeg" "jpeg" imgA imgB imgA.width imgA.height) : ℚ) /
        ((imgA.width * imgA.height *
          channelCountOf "jpeg" "jpeg" imgA imgB imgA.width imgA.height : ℕ) : ℚ))) :=
  ⟨⟨rfl, by decide⟩,
    (c1_correction_amended "jpeg" "jpeg" imgA imgB rfl rfl).1 (Or.inl rfl) (by decide),
    (c1_correction_amended "jpeg" "jpeg" imgA imgB rfl rfl).2.2 (by decide)⟩

theorem sqDiff_comm (a b : ℕ) : sqDiff a b = sqDiff b a := by
  unfold sqDiff
  congr 1
  ring

theorem pairContrib_comm (p q : List ℕ) (hasAlpha : Bool) (i : ℕ) :
    pairContrib p q hasAlpha i = pairContrib q p hasAlpha i := by
  unfold pairContrib
  rw [sqDiff_comm (p.getD i 0), sqDiff_comm (p.getD (i + 1) 0),
    sqDiff_comm (p.getD (i + 2) 0), sqDiff_comm (p.getD (i + 3) 0)]

theorem computeMSERGBA_comm (img1 img2 : Img) (hasAlpha : Bool)
    (hpix : img1.pix.length = img2.pix.length) :
    computeMSERGBA img1 img2 hasAlpha = computeMSERGBA img2 img1 hasAlpha := by
  rw [computeMSERGBA_eq, computeMSERGBA_eq, hpix]
  unfold packedSpecSum
  congr 1
  exact Finset.sum_congr rfl fun k _ => pairContrib_comm _ _ _ _

theorem computeMSENRGBA_comm (img1 img2 : Img) (hasAlpha : Bool)
    (hpix : img1.pix.length = img2.pix.length) :
    computeMSENRGBA img1 img2 hasAlpha = computeMSENRGBA img2 img1 hasAlpha := by
  rw [computeMSENRGBA_eq, computeMSENRGBA_eq, hpix]
  unfold packedSpecSum
  congr 1
  exact Finset.sum_congr rfl fun k _ => pairContrib_comm _ _ _ _

theorem genContrib_comm (img1 img2 : Img) (hasAlpha : Bool) (x y : ℕ) :
    genContrib img1 img2 hasAlpha x y = genContrib img2 img1 hasAlpha x y := by
  unfold genContrib
  rw [sqDiff_comm ((img1.at16 _ _).1 / 256), sqDiff_comm ((img1.at16 _ _).2.1 / 256),
    sqDiff_comm ((img1.at16 _ _).2.2.1 / 256), sqDiff_comm ((img1.at16 _ _).2.2.2 / 256)]

theorem computeMSEGeneric_comm (img1 img2 : Img) (width height : ℕ) (hasAlpha : Bool) :
    computeMSEGeneric img1 img2 width height hasAlpha =
      computeMSEGeneric img2 img1 width height hasAlpha := by
  rw [computeMSEGeneric_eq, computeMSEGeneric_eq]
  unfold genericSpecSum
  congr 1
  exact Finset.sum_congr rfl fun y _ =>
    Finset.sum_congr rfl fun x _ => genContrib_comm _ _ _ _ _

theorem ycbcrContrib_comm (img1 img2 : Img) (x y : ℤ) :
    ycbcrContrib img1 img2 x y = ycbcrContrib img2 img1 x y := by
  unfold ycbcrContrib
  rw [sqDiff_comm (ycbcrToRGB _ _ _).1, sqDiff_comm (ycbcrToRGB _ _ _).2.1,
    sqDiff_comm (ycbcrToRGB _ _ _).2.2]

theorem computeMSEYCbCr_comm (img1 img2 : Img)
    (hw : img1.width = img2.width) (hh : img1.height = img2.height)
    (hminX : img1.minX = img2.minX) (hminY : img1.minY = img2.minY) :
    computeMSEYCbCr img1 img2 = computeMSEYCbCr img2 img1 := by
  rw [computeMSEYCbCr_eq, computeMSEYCbCr_eq]
  have hs : ycbcrSpecSum img2 img1 = ycbcrSpecSum img1 img2 := by
    unfold ycbcrSpecSum
    rw [← hw, ← hh, ← hminX, ← hminY]
    exact Finset.sum_congr rfl fun dy _ =>
      Finset.sum_congr rfl fun dx _ => ycbcrContrib_comm img2 img1 _ _
  rw [hs]

theorem sampleNonOpaque_comm (img1 img2 : Img) (x y : ℕ) :
    sampleNonOpaque img1 img2 x y = sampleNonOpaque img2 img1 x y := by
  unfold sampleNonOpaque
  exact Bool.or_comm _ _

theorem detectAlpha_comm (img1 img2 : Img) (w h : ℕ) :
    detectAlpha img1 img2 w h = detectAlpha img2 img1 w h := by
  unfold detectAlpha
  congr 1
  funext y
  congr 1
  funext x
  exact sampleNonOpaque_comm img1 img2 x y

theorem hasAlphaOf_comm (format1 format2 : String) (img1 img2 : Img) (w h : ℕ) :
    hasAlphaOf format1 format2 img1 img2 w h = hasAlphaOf format2 format1 img2 img1 w h := by
  unfold hasAlphaOf
  by_cases hpng : format1 = "png" ∨ format2 = "png"
  · rw [if_pos hpng, if_pos (Or.symm hpng)]
    exact detectAlpha_comm img1 img2 w h
  · rw [if_neg hpng, if_neg (fun hc => hpng (Or.symm hc))]

theorem channelCountOf_comm (format1 format2 : String) (img1 img2 : Img) (w h : ℕ) :
    channelCountOf format1 format2 img1 img2 w h =
      channelCountOf format2 format1 img2 img1 w h := by
  unfold channelCountOf
  rw [hasAlphaOf_comm]

theorem dispatchSum_comm (img1 img2 : Img) (w h : ℕ) (hasAlpha : Bool)
    (hw : img1.width = img2.width) (hh : img1.height = img2.height)
    (hpix : img1.pix.length = img2.pix.length)
    (hminX : img1.minX = img2.minX) (hminY : img1.minY = img2.minY) :
    dispatchSum img1 img2 w h hasAlpha = dispatchSum img2 img1 w h hasAlpha := by
  cases h1 : img1.layout <;> cases h2 : img2.layout <;>
    simp [dispatchSum, h1, h2, computeMSERGBA_comm img1 img2 hasAlpha hpix,
      computeMSENRGBA_comm img1 img2 hasAlpha hpix,
      computeMSEGeneric_comm img1 img2 w h hasAlpha,
      computeMSEYCbCr_comm img1 img2 hw hh hminX hminY]

theorem computeMse_symm (format1 format2 : String) (img1 img2 : Img)
    (hw : img1.width = img2.width) (hh : img1.height = img2.height)
    (hpix : img1.pix.length = img2.pix.length)
    (hminX : img1.minX = img2.minX) (hminY : img1.minY = img2.minY) :
    computeMse format1 format2 img1 img2 = computeMse format2 format1 img2 img1 := by
  have hA : hasAlphaOf format2 format1 img2 img1 img2.width img2.height
      = hasAlphaOf format1 format2 img1 img2 img1.width img1.height := by
    rw [← hw, ← hh]
    exact (hasAlphaOf_comm format1 format2 img1 img2 img1.width img1.height).symm
  have hC : channelCountOf format2 format1 img2 img1 img2.width img2.height
      = channelCountOf format1 format2 img1 img2 img1.width img1.height := by
    rw [← hw, ← hh]
    exact (channelCountOf_comm format1 format2 img1 img2 img1.width img1.height).symm
  have hS : dispatchSum img2 img1 img2.width img2.height
        (hasAlphaOf format2 format1 img2 img1 img2.width img2.height)
      = dispatchSum img1 img2 img1.width img1.height
        (hasAlphaOf format1 format2 img1 img2 img1.width img1.height) := by
    rw [hA, ← hw, ← hh]
    exact (dispatchSum_comm img1 img2 img1.width img1.height _ hw hh hpix hminX hminY).symm
  unfold computeMse
  rw [hS, hC, ← hw, ← hh]

/-- C7: Compute is symmetric in its two decoded inputs (formats travelling
with their images): for any valid decodable pair — equal dimensions, matching
packed-buffer lengths and the canonical decoder origin (equal bounds minima,
which Go's png/jpeg decoders always set to (0,0)) — swapping the two inputs
yields the same result.  This covers the alpha detection, the kernel dispatch
including mixed-layout pairs routed to the generic kernel, and the
accumulation itself. -/
theorem c7_symmetry (format1 format2 : String) (img1 img2 : Img)
    (hw : img1.width = img2.width) (hh : img1.height = img2.height)
    (hpix : img1.pix.length = img2.pix.length)
    (hminX : img1.minX = img2.minX) (hminY : img1.minY = img2.minY) :
    Compute format1 format2 img1 img2 = Compute format2 format1 img2 img1 := by
  unfold Compute
  rw [computeMse_symm format1 format2 img1 img2 hw hh hpix hminX hminY]

/-- Witness for C7 at a concrete input: swapping the jpeg/png-tagged pair
(imgA, imgB) leaves the result unchanged. -/
theorem c7_symmetry_witness :
    (imgA.width = imgB.width ∧ imgA.pix.length = imgB.pix.length) ∧
    Compute "jpeg" "png" imgA imgB = Compute "png" "jpeg" imgB imgA :=
  ⟨⟨rfl, rfl⟩, c7_symmetry "jpeg" "png" imgA imgB rfl rfl rfl rfl rfl⟩

/-- C8: when both images carry the planar YCbCr layout, the dispatched kernel
is computeMSEYCbCr regardless of the alpha flag, and that kernel equals (mod
the uint64 accumulator) the double sum of squared differences of the
RGB-converted pixels: every pixel's (Y, Cb, Cr) triple of both images is put
through the standard conversion ycbcrToRGB before subtracting, only the three
RGB channels are summed, and no alpha term contributes on this path. -/
theorem c8_ycbcr_kernel (img1 img2 : Img) :
    (∀ (hasAlpha : Bool) (w h : ℕ), img1.layout = .ycbcr → img2.layout = .ycbcr →
      dispatchSum img1 img2 w h hasAlpha = computeMSEYCbCr img1 img2) ∧
    computeMSEYCbCr img1 img2 =
      (∑ dy in Finset.range img1.height, ∑ dx in Finset.range img1.width,
        (sqDiff
          (ycbcrToRGB (img1.yAt ((dx : ℤ) + img1.minX) ((dy : ℤ) + img1.minY))
            (img1.cbAt ((dx : ℤ) + img1.minX) ((dy : ℤ) + img1.minY))
            (img1.crAt ((dx : ℤ) + img1.minX) ((dy : ℤ) + img1.minY))).1
          (ycbcrToRGB (img2.yAt ((dx : ℤ) + img1.minX) ((dy : ℤ) + img1.minY))
            (img2.cbAt ((dx : ℤ) + img1.minX) ((dy : ℤ) + img1.minY))
            (img2.crAt ((dx : ℤ) + img1.minX) ((dy : ℤ) + img1.minY))).1 +
        sqDiff
          (ycbcrToRGB (img1.yAt ((dx : ℤ) + img1.minX) ((dy : ℤ) + img1.minY))
            (img1.cbAt ((dx : ℤ) + img1.minX) ((dy : ℤ) + img1.minY))
            (img1.crAt ((dx : ℤ) + img1.minX) ((dy : ℤ) + img1.minY))).2.1
          (ycbcrToRGB (img2.yAt ((dx : ℤ) + img1.minX) ((dy : ℤ) + img1.minY))
            (img2.cbAt ((dx : ℤ) + img1.minX) ((dy : ℤ) + img1.minY))
            (img2.crAt ((dx : ℤ) + img1.minX) ((dy : ℤ) + img1.minY))).2.1 +
        sqDiff
          (ycbcrToRGB (img1.yAt ((dx : ℤ) + img1.minX) ((dy : ℤ) + img1.minY))
            (img1.cbAt ((dx : ℤ) + img1.minX) ((dy : ℤ) + img1.minY))
            (img1.crAt ((dx : ℤ) + img1.minX) ((dy : ℤ) + img1.minY))).2.2
          (ycbcrToRGB (img2.yAt ((dx : ℤ) + img1.minX) ((dy : ℤ) + img1.minY))
            (img2.cbAt ((dx : ℤ) + img1.minX) ((dy : ℤ) + img1.minY))
            (img2.crAt ((dx : ℤ) + img1.minX) ((dy : ℤ) + img1.minY))).2.2)) % M64 := by
  constructor
  · intro hasAlpha w h h1 h2
    simp [dispatchSum, h1, h2]
  · rw [computeMSEYCbCr_eq]
    rfl

/-- Witness for C8 at a concrete input: a 1-by-1 YCbCr pair is dispatched to
computeMSEYCbCr with either value of the alpha flag. -/
theorem c8_ycbcr_kernel_witness :
    ((⟨1, 1, 0, 0, .ycbcr, [], fun _ _ => 100, fun _ _ => 120, fun _ _ => 130,
        fun _ _ => (0, 0, 0, 65535)⟩ : Img).layout = .ycbcr) ∧
    dispatchSum
      ⟨1, 1, 0, 0, .ycbcr, [], fun _ _ => 100, fun _ _ => 120, fun _ _ => 130,
        fun _ _ => (0, 0, 0, 65535)⟩
      ⟨1, 1, 0, 0, .ycbcr, [], fun _ _ => 90, fun _ _ => 125, fun _ _ => 135,
        fun _ _ => (0, 0, 0, 65535)⟩ 1 1 true =
    computeMSEYCbCr
      ⟨1, 1, 0, 0, .ycbcr, [], fun _ _ => 100, fun _ _ => 120, fun _ _ => 130,
        fun _ _ => (0, 0, 0, 65535)⟩
      ⟨1, 1, 0, 0, .ycbcr, [], fun _ _ => 90, fun _ _ => 125, fun _ _ => 135,
        fun _ _ => (0, 0, 0, 65535)⟩ :=
  ⟨rfl, (c8_ycbcr_kernel _ _).1 true 1 1 rfl rfl⟩

theorem getD_lt_256 (l : List ℕ) (i : ℕ) (hb : ∀ b ∈ l, b < 256) :
    l.getD i 0 < 256 := by
  rw [List.getD_eq_getElem?_getD]
  rcases h : l[i]? with _ | v
  · simp
  · simp only [Option.getD_some]
    exact hb v (List.getElem?_mem h)

theorem sqDiff_le_65025 (a b : ℕ) (ha : a < 256) (hb : b < 256) :
    sqDiff a b ≤ 65025 := by
  unfold sqDiff
  rw [show ((65025 : ℕ) = Int.toNat 65025) from rfl]
  apply Int.toNat_le_toNat
  have h1 : (a : ℤ) - b ≤ 255 := by omega
  have h2 : -255 ≤ (a : ℤ) - b := by omega
  nlinarith [sq_nonneg ((a : ℤ) - b)]

theorem pairContrib_le (p q : List ℕ) (hasAlpha : Bool) (i : ℕ)
    (hb1 : ∀ b ∈ p, b < 256) (hb2 : ∀ b ∈ q, b < 256) :
    pairContrib p q hasAlpha i ≤ 260100 := by
  unfold pairContrib
  have h1 := sqDiff_le_65025 _ _ (getD_lt_256 p i hb1) (getD_lt_256 q i hb2)
  have h2 := sqDiff_le_65025 _ _ (getD_lt_256 p (i + 1) hb1) (getD_lt_256 q (i + 1) hb2)
  have h3 := sqDiff_le_65025 _ _ (getD_lt_256 p (i + 2) hb1) (getD_lt_256 q (i + 2) hb2)
  have h4 := sqDiff_le_65025 _ _ (getD_lt_256 p (i + 3) hb1) (getD_lt_256 q (i + 3) hb2)
  cases hasAlpha
  · rw [if_neg Bool.false_ne_true]
    omega
  · rw [if_pos rfl]
    omega

theorem genContrib_le (img1 img2 : Img) (hasAlpha : Bool) (x y : ℕ)
    (h16a : ∀ x y : ℤ, (img1.at16 x y).1 < 65536 ∧ (img1.at16 x y).2.1 < 65536 ∧
        (img1.at16 x y).2.2.1 < 65536 ∧ (img1.at16 x y).2.2.2 < 65536)
    (h16b : ∀ x y : ℤ, (img2.at16 x y).1 < 65536 ∧ (img2.at16 x y).2.1 < 65536 ∧
        (img2.at16 x y).2.2.1 < 65536 ∧ (img2.at16 x y).2.2.2 < 65536) :
    genContrib img1 img2 hasAlpha x y ≤ 260100 := by
  have hd : ∀ c : ℕ, c < 65536 → c / 256 < 256 := by omega
  obtain ⟨a1, a2, a3, a4⟩ := h16a ((x : ℤ) + img1.minX) ((y : ℤ) + img1.minY)
  obtain ⟨b1, b2, b3, b4⟩ := h16b ((x : ℤ) + img2.minX) ((y : ℤ) + img2.minY)
  unfold genContrib
  have h1 := sqDiff_le_65025 _ _ (hd _ a1) (hd _ b1)
  have h2 := sqDiff_le_65025 _ _ (hd _ a2) (hd _ b2)
  have h3 := sqDiff_le_65025 _ _ (hd _ a3) (hd _ b3)
  have h4 := sqDiff_le_65025 _ _ (hd _ a4) (hd _ b4)
  cases hasAlpha
  · rw [if_neg Bool.false_ne_true]
    omega
  · rw [if_pos rfl]
    omega

theorem packedSpecSum_le (p q : List ℕ) (hasAlpha : Bool) (n : ℕ)
    (hb1 : ∀ b ∈ p, b < 256) (hb2 : ∀ b ∈ q, b < 256) :
    packedSpecSum p q hasAlpha n ≤ n * 260100 := by
  unfold packedSpecSum
  calc ∑ k in Finset.range n, pairContrib p q hasAlpha (4 * k)
      ≤ ∑ _k in Finset.range n, 260100 :=
        Finset.sum_le_sum fun k _ => pairContrib_le p q hasAlpha (4 * k) hb1 hb2
    _ = n * 260100 := by simp [Finset.sum_const, Finset.card_range, Nat.mul_comm]

theorem genericSpecSum_le (img1 img2 : Img) (w h : ℕ) (hasAlpha : Bool)
    (h16a : ∀ x y : ℤ, (img1.at16 x y).1 < 65536 ∧ (img1.at16 x y).2.1 < 65536 ∧
        (img1.at16 x y).2.2.1 < 65536 ∧ (img1.at16 x y).2.2.2 < 65536)
    (h16b : ∀ x y : ℤ, (img2.at16 x y).1 < 65536 ∧ (img2.at16 x y).2.1 < 65536 ∧
        (img2.at16 x y).2.2.1 < 65536 ∧ (img2.at16 x y).2.2.2 < 65536) :
    genericSpecSum img1 img2 w h hasAlpha ≤ h * (w * 260100) := by
  unfold genericSpecSum
  calc ∑ y in Finset.range h, ∑ x in Finset.range w, genContrib img1 img2 hasAlpha x y
      ≤ ∑ _y in Finset.range h, (w * 260100) := by
        apply Finset.sum_le_sum
        intro y _
        calc ∑ x in Finset.range w, genContrib img1 img2 hasAlpha x y
            ≤ ∑ _x in Finset.range w, 260100 :=
              Finset.sum_le_sum fun x _ => genContrib_le img1 img2 hasAlpha x y h16a h16b
          _ = w * 260100 := by simp [Finset.sum_const, Finset.card_range, Nat.mul_comm]
    _ = h * (w * 260100) := by simp [Finset.sum_const, Finset.card_range, Nat.mul_comm]

/-- C9 amended: with the pixel count w * h bounded by 2^32 (equivalently,
dimensions up to 2^16 by 2^16, as in the spec's own "up to at least 2^16 x
2^16 pixels"), 4 channels and every per-channel difference bounded by 255
(squared bounded by 65025), the mathematical accumulated sum stays below 2^64,
so the wrapping uint64 accumulation of both the packed kernel and the generic
kernel computes it exactly and no saturation logic is needed.  (The original
claim's bound — width and height each merely representable in 32 bits — is
refuted by the counterexample.) -/
theorem c9_no_overflow_amended (img1 img2 : Img) (hasAlpha : Bool) (w h : ℕ)
    (hwh : w * h ≤ 4294967296)
    (hlen : img1.pix.length = 4 * (w * h))
    (hb1 : ∀ b ∈ img1.pix, b < 256) (hb2 : ∀ b ∈ img2.pix, b < 256)
    (h16a : ∀ x y : ℤ, (img1.at16 x y).1 < 65536 ∧ (img1.at16 x y).2.1 < 65536 ∧
        (img1.at16 x y).2.2.1 < 65536 ∧ (img1.at16 x y).2.2.2 < 65536)
    (h16b : ∀ x y : ℤ, (img2.at16 x y).1 < 65536 ∧ (img2.at16 x y).2.1 < 65536 ∧
        (img2.at16 x y).2.2.1 < 65536 ∧ (img2.at16 x y).2.2.2 < 65536) :
    (packedSpecSum img1.pix img2.pix hasAlpha ((img1.pix.length + 3) / 4) < M64 ∧
      computeMSERGBA img1 img2 hasAlpha =
        packedSpecSum img1.pix img2.pix hasAlpha ((img1.pix.length + 3) / 4)) ∧
    (genericSpecSum img1 img2 w h hasAlpha < M64 ∧
      computeMSEGeneric img1 img2 w h hasAlpha =
        genericSpecSum img1 img2 w h hasAlpha) := by
  have hcount : (img1.pix.length + 3) / 4 = w * h := by omega
  have hp : packedSpecSum img1.pix img2.pix hasAlpha ((img1.pix.length + 3) / 4) < M64 := by
    calc packedSpecSum img1.pix img2.pix hasAlpha ((img1.pix.length + 3) / 4)
        ≤ (img1.pix.length + 3) / 4 * 260100 := packedSpecSum_le _ _ _ _ hb1 hb2
      _ ≤ 4294967296 * 260100 := by
          rw [hcount]
          exact Nat.mul_le_mul_right _ hwh
      _ < M64 := by norm_num [M64]
  have hg : genericSpecSum img1 img2 w h hasAlpha < M64 := by
    calc genericSpecSum img1 img2 w h hasAlpha
        ≤ h * (w * 260100) := genericSpecSum_le _ _ _ _ _ h16a h16b
      _ = w * h * 260100 := by ring
      _ ≤ 4294967296 * 260100 := Nat.mul_le_mul_right _ hwh
      _ < M64 := by norm_num [M64]
  exact ⟨⟨hp, by rw [computeMSERGBA_eq, Nat.mod_eq_of_lt hp]⟩,
    ⟨hg, by rw [computeMSEGeneric_eq, Nat.mod_eq_of_lt hg]⟩⟩

/-- Saturated all-white generic image of the maximal 32-bit dimensions. -/
def gMax : Img :=
  ⟨4294967295, 4294967295, 0, 0, .generic, [], fun _ _ => 0, fun _ _ => 0, fun _ _ => 0,
    fun _ _ => (65535, 65535, 65535, 65535)⟩

/-- All-black generic image of the maximal 32-bit dimensions. -/
def gMin : Img :=
  ⟨4294967295, 4294967295, 0, 0, .generic, [], fun _ _ => 0, fun _ _ => 0, fun _ _ => 0,
    fun _ _ => (0, 0, 0, 0)⟩

/-- C9 counterexample: with width and height each representable in 32 bits
(2^32 - 1 here) and every per-channel difference equal to 255, the
mathematical accumulated sum is (2^32-1)^2 * 260100, which does NOT fit in a
uint64, and the generic kernel's wrapping 64-bit accumulator consequently
disagrees with it: the accumulation overflows. -/
theorem c9_overflow_counterexample :
    genericSpecSum gMax gMin 4294967295 4294967295 true =
      4294967295 * (4294967295 * 260100) ∧
    M64 ≤ genericSpecSum gMax gMin 4294967295 4294967295 true ∧
    computeMSEGeneric gMax gMin 4294967295 4294967295 true ≠
      genericSpecSum gMax gMin 4294967295 4294967295 true := by
  have hc : ∀ x y : ℕ, genContrib gMax gMin true x y = 260100 := by
    intro x y
    norm_num [genContrib, gMax, gMin, sqDiff]
    decide
  have h1 : genericSpecSum gMax gMin 4294967295 4294967295 true =
      4294967295 * (4294967295 * 260100) := by
    unfold genericSpecSum
    calc ∑ y in Finset.range 4294967295, ∑ x in Finset.range 4294967295,
          genContrib gMax gMin true x y
        = ∑ _y in Finset.range 4294967295, ∑ _x in Finset.range 4294967295, 260100 := by
          exact Finset.sum_congr rfl fun y _ => Finset.sum_congr rfl fun x _ => hc x y
      _ = 4294967295 * (4294967295 * 260100) := by
          simp [Finset.sum_const, Finset.card_range]
  have h2 : M64 ≤ genericSpecSum gMax gMin 4294967295 4294967295 true := by
    rw [h1]
    norm_num [M64]
  refine ⟨h1, h2, ?_⟩
  rw [computeMSEGeneric_eq]
  have := Nat.mod_lt (genericSpecSum gMax gMin 4294967295 4294967295 true) M64_pos
  omega

/-- Witness for C9 amended at a concrete input: the 1-by-1 pair (imgA, imgB)
satisfies all boundedness hypotheses, its sums are below 2^64 and both kernels
compute them exactly. -/
theorem c9_no_overflow_amended_witness :
    ((1 : ℕ) * 1 ≤ 4294967296 ∧ imgA.pix.length = 4 * (1 * 1)) ∧
    ((packedSpecSum imgA.pix imgB.pix true ((imgA.pix.length + 3) / 4) < M64 ∧
      computeMSERGBA imgA imgB true =
        packedSpecSum imgA.pix imgB.pix true ((imgA.pix.length + 3) / 4)) ∧
    (genericSpecSum imgA imgB 1 1 true < M64 ∧
      computeMSEGeneric imgA imgB 1 1 true = genericSpecSum imgA imgB 1 1 true)) :=
  ⟨⟨by decide, rfl⟩,
    c9_no_overflow_amended imgA imgB true 1 1 (by decide) rfl (by decide) (by decide)
      (fun x y => by refine ⟨?_, ?_, ?_, ?_⟩ <;> norm_num [imgA])
      (fun x y => by refine ⟨?_, ?_, ?_, ?_⟩ <;> norm_num [imgB])⟩

/-- Bounds-checked version of the packed loop body: every buffer access of the
Go source (pix1[i], pix2[i], ..., and pix1[i+3], pix2[i+3] only under
`hasAlpha`) is performed with a checked lookup that fails — as the Go runtime
would panic — when the index is not strictly below the buffer length. -/
def packedStepChecked (pix1 pix2 : List ℕ) (hasAlpha : Bool) (i : ℕ) (acc : ℕ) :
    Option ℕ :=
  match pix1.get? i, pix2.get? i, pix1.get? (i + 1), pix2.get? (i + 1),
      pix1.get? (i + 2), pix2.get? (i + 2) with
  | some r1, some r2, some g1, some g2, some b1, some b2 =>
      if hasAlpha then
        match pix1.get? (i + 3), pix2.get? (i + 3) with
        | some a1, some a2 =>
            some (((acc + (sqDiff r1 r2 + sqDiff g1 g2 + sqDiff b1 b2)) % M64 +
              sqDiff a1 a2) % M64)
        | _, _ => none
      else some ((acc + (sqDiff r1 r2 + sqDiff g1 g2 + sqDiff b1 b2)) % M64)
  | _, _, _, _, _, _ => none

/-- Bounds-checked version of the packed loop. -/
def packedLoopChecked (pix1 pix2 : List ℕ) (hasAlpha : Bool) : ℕ → ℕ → ℕ → Option ℕ
  | _, 0, acc => some acc
  | i, n + 1, acc =>
      match packedStepChecked pix1 pix2 hasAlpha i acc with
      | some acc2 => packedLoopChecked pix1 pix2 hasAlpha (i + 4) n acc2
      | none => none

theorem get?_eq_some_getD (l : List ℕ) (j : ℕ) (hj : j < l.length) :
    l.get? j = some (l.getD j 0) := by
  rw [List.getD_eq_getElem?_getD, List.get?_eq_getElem?]
  rw [List.getElem?_eq_getElem hj]
  rfl

theorem packedStepChecked_eq (pix1 pix2 : List ℕ) (hasAlpha : Bool) (i acc : ℕ)
    (h1 : i + 4 ≤ pix1.length) (h2 : i + 4 ≤ pix2.length) :
    packedStepChecked pix1 pix2 hasAlpha i acc =
      some (packedStep pix1 pix2 hasAlpha i acc) := by
  unfold packedStepChecked packedStep
  rw [get?_eq_some_getD pix1 i (by omega), get?_eq_some_getD pix2 i (by omega),
    get?_eq_some_getD pix1 (i + 1) (by omega), get?_eq_some_getD pix2 (i + 1) (by omega),
    get?_eq_some_getD pix1 (i + 2) (by omega), get?_eq_some_getD pix2 (i + 2) (by omega),
    get?_eq_some_getD pix1 (i + 3) (by omega), get?_eq_some_getD pix2 (i + 3) (by omega)]
  cases hasAlpha <;> rfl

theorem packedLoopChecked_eq (pix1 pix2 : List ℕ) (hasAlpha : Bool) :
    ∀ (n i acc : ℕ), i + 4 * n ≤ pix1.length → i + 4 * n ≤ pix2.length →
      packedLoopChecked pix1 pix2 hasAlpha i n acc =
        some (packedLoop pix1 pix2 hasAlpha i n acc) := by
  intro n
  induction n with
  | zero =>
      intro i acc _ _
      rfl
  | succ n ih =>
      intro i acc h1 h2
      rw [packedLoopChecked, packedLoop,
        packedStepChecked_eq pix1 pix2 hasAlpha i acc (by omega) (by omega)]
      exact ih (i + 4) _ (by omega) (by omega)

/-- C10: under the precondition established by the dimension check and the
decoded layouts — both packed buffers have length 4 * width * height — the
packed fast-path kernels never access either buffer out of bounds: running the
same loop with every access bounds-checked (failing like a Go panic on any
index not strictly below the buffer length) succeeds and returns exactly the
kernels' values.  computeMSERGBA and computeMSENRGBA share this loop. -/
theorem c10_no_out_of_bounds (img1 img2 : Img) (hasAlpha : Bool) (w h : ℕ)
    (hlen1 : img1.pix.length = 4 * (w * h)) (hlen2 : img2.pix.length = 4 * (w * h)) :
    packedLoopChecked img1.pix img2.pix hasAlpha 0 ((img1.pix.length + 3) / 4) 0 =
      some (computeMSERGBA img1 img2 hasAlpha) ∧
    packedLoopChecked img1.pix img2.pix hasAlpha 0 ((img1.pix.length + 3) / 4) 0 =
      some (computeMSENRGBA img1 img2 hasAlpha) := by
  have hb : 0 + 4 * ((img1.pix.length + 3) / 4) ≤ img1.pix.length := by omega
  have hb2 : 0 + 4 * ((img1.pix.length + 3) / 4) ≤ img2.pix.length := by omega
  exact ⟨packedLoopChecked_eq _ _ _ _ _ _ hb hb2, packedLoopChecked_eq _ _ _ _ _ _ hb hb2⟩

/-- Witness for C10 at a concrete input: the 1-by-1 pair (imgA, imgB) with
4-byte buffers runs the checked loop to completion with the kernel's value. -/
theorem c10_no_out_of_bounds_witness :
    (imgA.pix.length = 4 * (1 * 1) ∧ imgB.pix.length = 4 * (1 * 1)) ∧
    packedLoopChecked imgA.pix imgB.pix true 0 ((imgA.pix.length + 3) / 4) 0 =
      some (computeMSERGBA imgA imgB true) :=
  ⟨⟨rfl, rfl⟩, (c10_no_out_of_bounds imgA imgB true 1 1 rfl rfl).1⟩

/-
Infrastructure for the SIMD kernel claims: the horizontally-reduced value of
the AVX2 accumulator depends only on the total of the eight 32-bit lanes
modulo 2^32, and that total tracks the mathematical sum of the masked squared
byte differences.
-/

/-- Total of the eight 32-bit lanes of the vector accumulator. -/
def laneTotal (v : Vec8) : ℕ :=
  v.a0 + v.a1 + v.a2 + v.a3 + v.a4 + v.a5 + v.a6 + v.a7

theorem add32_chain (a b c d e : ℕ) :
    add32 (add32 (add32 (add32 a b) c) d) e = (a + b + c + d + e) % M32 := by
  unfold add32 M32
  omega

theorem sum8_mod (x0 x1 x2 x3 x4 x5 x6 x7 : ℕ) :
    (x0 % M32 + x1 % M32 + x2 % M32 + x3 % M32 + x4 % M32 + x5 % M32 + x6 % M32 +
      x7 % M32) % M32 = (x0 + x1 + x2 + x3 + x4 + x5 + x6 + x7) % M32 := by
  unfold M32
  omega

theorem hsum_eq (v : Vec8) : hsum v = laneTotal v % M32 := by
  simp only [hsum, laneTotal, add32, M32]
  omega

theorem sum_range_add (f : ℕ → ℕ) (a b : ℕ) :
    ∑ k in Finset.range (a + b), f k =
      (∑ k in Finset.range a, f k) + ∑ j in Finset.range b, f (a + j) := by
  induction b with
  | zero => simp
  | succ b ih =>
      rw [show a + (b + 1) = (a + b) + 1 from by ring, Finset.sum_range_succ, ih,
        Finset.sum_range_succ, Nat.add_assoc]

set_option maxHeartbeats 1000000 in
theorem laneTotal_simdIter (pix1 pix2 : List ℕ) (hasAlpha : Bool) (i : ℕ) (v : Vec8) :
    laneTotal (simdIter pix1 pix2 hasAlpha i v) % M32 =
      (laneTotal v + ∑ j in Finset.range 32, maskedSq pix1 pix2 hasAlpha (i + j)) % M32 := by
  simp only [simdIter, laneTotal, add32_chain]
  rw [sum8_mod, show (32 : ℕ) = 31 + 1 from rfl]
  simp only [Finset.sum_range_succ, Finset.sum_range_zero, Nat.add_zero, Nat.zero_add]
  simp only [M32]
  omega

theorem laneTotal_simdVecLoop (pix1 pix2 : List ℕ) (hasAlpha : Bool) :
    ∀ (n i : ℕ) (v : Vec8),
      laneTotal (simdVecLoop pix1 pix2 hasAlpha i n v) % M32 =
        (laneTotal v + ∑ j in Finset.range (32 * n),
          maskedSq pix1 pix2 hasAlpha (i + j)) % M32 := by
  intro n
  induction n with
  | zero =>
      intro i v
      simp [simdVecLoop]
  | succ n ih =>
      intro i v
      have hsplit : ∑ j in Finset.range (32 * (n + 1)), maskedSq pix1 pix2 hasAlpha (i + j)
          = (∑ j in Finset.range 32, maskedSq pix1 pix2 hasAlpha (i + j)) +
            ∑ j in Finset.range (32 * n), maskedSq pix1 pix2 hasAlpha (i + 32 + j) := by
        rw [show 32 * (n + 1) = 32 + 32 * n from by ring, sum_range_add]
        congr 1
        exact Finset.sum_congr rfl fun j _ => by rw [Nat.add_assoc]
      rw [simdVecLoop, ih (i + 32) (simdIter pix1 pix2 hasAlpha i v)]
      rw [← Nat.mod_add_mod, laneTotal_simdIter, Nat.mod_add_mod, hsplit, Nat.add_assoc]

theorem sq16_eq_sqDiff (a b : ℕ) (ha : a < 256) (hb : b < 256) :
    sq16 a b = sqDiff a b := by
  unfold sq16 sqDiff
  congr 1
  rw [← Int.mul_emod]
  apply Int.emod_eq_of_lt
  · exact mul_self_nonneg _
  · have h1 : (a : ℤ) - b ≤ 255 := by omega
    have h2 : -255 ≤ (a : ℤ) - b := by omega
    nlinarith

theorem maskedSq_group (pix1 pix2 : List ℕ) (hasAlpha : Bool) (t : ℕ)
    (hb1 : ∀ b ∈ pix1, b < 256) (hb2 : ∀ b ∈ pix2, b < 256) :
    maskedSq pix1 pix2 hasAlpha (4 * t) + maskedSq pix1 pix2 hasAlpha (4 * t + 1) +
      maskedSq pix1 pix2 hasAlpha (4 * t + 2) + maskedSq pix1 pix2 hasAlpha (4 * t + 3) =
      pairContrib pix1 pix2 hasAlpha (4 * t) := by
  have e0 : (4 * t) % 4 = 0 := by omega
  have e1 : (4 * t + 1) % 4 = 1 := by omega
  have e2 : (4 * t + 2) % 4 = 2 := by omega
  have e3 : (4 * t + 3) % 4 = 3 := by omega
  have hs : ∀ j : ℕ, sq16 (pix1.getD j 0) (pix2.getD j 0) =
      sqDiff (pix1.getD j 0) (pix2.getD j 0) := fun j =>
    sq16_eq_sqDiff _ _ (getD_lt_256 pix1 j hb1) (getD_lt_256 pix2 j hb2)
  unfold maskedSq pairContrib
  cases hasAlpha
  · rw [if_neg (fun hcc => absurd hcc.2 (by omega)),
      if_neg (fun hcc => absurd hcc.2 (by omega)),
      if_neg (fun hcc => absurd hcc.2 (by omega)),
      if_pos (And.intro rfl (by omega)),
      if_neg Bool.false_ne_true]
    rw [hs, hs, hs]
  · rw [if_neg (fun hcc => absurd hcc.1 (by decide)),
      if_neg (fun hcc => absurd hcc.1 (by decide)),
      if_neg (fun hcc => absurd hcc.1 (by decide)),
      if_neg (fun hcc => absurd hcc.1 (by decide)),
      if_pos rfl]
    rw [hs, hs, hs, hs]

theorem vecSum_eq_packedSpec (pix1 pix2 : List ℕ) (hasAlpha : Bool)
    (hb1 : ∀ b ∈ pix1, b < 256) (hb2 : ∀ b ∈ pix2, b < 256) :
    ∀ m : ℕ, ∑ j in Finset.range (4 * m), maskedSq pix1 pix2 hasAlpha j =
      packedSpecSum pix1 pix2 hasAlpha m := by
  intro m
  induction m with
  | zero => simp [packedSpecSum]
  | succ m ih =>
      rw [show 4 * (m + 1) = 4 * m + 4 from by ring, sum_range_add, ih]
      have h4 : ∑ j in Finset.range 4, maskedSq pix1 pix2 hasAlpha (4 * m + j)
          = pairContrib pix1 pix2 hasAlpha (4 * m) := by
        rw [show (4 : ℕ) = 3 + 1 from rfl]
        simp only [Finset.sum_range_succ, Finset.sum_range_zero, Nat.zero_add,
          Nat.add_zero]
        exact maskedSq_group pix1 pix2 hasAlpha m hb1 hb2
      rw [h4]
      unfold packedSpecSum
      rw [Finset.sum_range_succ]

theorem simdTailLoop_eq_packedLoop (pix1 pix2 : List ℕ) (hasAlpha : Bool) :
    ∀ (n i s : ℕ), simdTailLoop pix1 pix2 hasAlpha i n s =
      packedLoop pix1 pix2 hasAlpha i n s := by
  intro n
  induction n with
  | zero =>
      intro i s
      rfl
  | succ n ih =>
      intro i s
      rw [simdTailLoop, packedLoop, ih]

theorem packedLoop_split (pix1 pix2 : List ℕ) (hasAlpha : Bool) :
    ∀ (n1 n2 i acc : ℕ), packedLoop pix1 pix2 hasAlpha i (n1 + n2) acc =
      packedLoop pix1 pix2 hasAlpha (i + 4 * n1) n2
        (packedLoop pix1 pix2 hasAlpha i n1 acc) := by
  intro n1
  induction n1 with
  | zero =>
      intro n2 i acc
      simp [packedLoop]
  | succ n1 ih =>
      intro n2 i acc
      rw [show n1 + 1 + n2 = n1 + n2 + 1 from by ring]
      rw [packedLoop, packedLoop, ih]
      congr 1
      omega

/-- The SIMD kernel agrees with the scalar packed loop whenever the
mathematical sum over its vectorized portion (the first 8 * (L / 32) pixels)
stays below 2^31, so that neither the 32-bit lane accumulation nor the signed
32-bit extraction can wrap. -/
theorem compute_mse_rgba_simd_eq_small (pix1 pix2 : List ℕ) (hasAlpha : Bool) (L : ℕ)
    (hb1 : ∀ b ∈ pix1, b < 256) (hb2 : ∀ b ∈ pix2, b < 256)
    (hsmall : packedSpecSum pix1 pix2 hasAlpha (8 * (L / 32)) < 2147483648) :
    compute_mse_rgba_simd pix1 pix2 L hasAlpha =
      packedLoop pix1 pix2 hasAlpha 0 ((L + 3) / 4) 0 := by
  have hvec : laneTotal (simdVecLoop pix1 pix2 hasAlpha 0 (L / 32) ⟨0, 0, 0, 0, 0, 0, 0, 0⟩) %
      M32 = packedSpecSum pix1 pix2 hasAlpha (8 * (L / 32)) % M32 := by
    rw [laneTotal_simdVecLoop]
    have h1 : ∑ j in Finset.range (32 * (L / 32)), maskedSq pix1 pix2 hasAlpha (0 + j)
        = packedSpecSum pix1 pix2 hasAlpha (8 * (L / 32)) := by
      rw [show 32 * (L / 32) = 4 * (8 * (L / 32)) from by ring,
        ← vecSum_eq_packedSpec pix1 pix2 hasAlpha hb1 hb2 (8 * (L / 32))]
      exact Finset.sum_congr rfl fun j _ => by rw [Nat.zero_add]
    rw [show laneTotal ⟨0, 0, 0, 0, 0, 0, 0, 0⟩ = 0 from rfl, Nat.zero_add, h1]
  have hSV32 : packedSpecSum pix1 pix2 hasAlpha (8 * (L / 32)) % M32 =
      packedSpecSum pix1 pix2 hasAlpha (8 * (L / 32)) :=
    Nat.mod_eq_of_lt (by unfold M32; omega)
  have hinner : packedLoop pix1 pix2 hasAlpha 0 (8 * (L / 32)) 0 =
      packedSpecSum pix1 pix2 hasAlpha (8 * (L / 32)) := by
    rw [packedLoop_eq pix1 pix2 hasAlpha (8 * (L / 32)) 0 0 (by unfold M64; omega)]
    rw [Nat.zero_add]
    rw [Finset.sum_congr rfl fun k _ => by rw [Nat.zero_add]]
    rw [← packedSpecSum]
    exact Nat.mod_eq_of_lt (by unfold M64; omega)
  simp only [compute_mse_rgba_simd]
  rw [hsum_eq, hvec, hSV32]
  simp only [sext32]
  rw [if_pos hsmall, Nat.zero_add,
    Nat.mod_eq_of_lt (show packedSpecSum pix1 pix2 hasAlpha (8 * (L / 32)) < M64 from by
      unfold M64; omega)]
  rw [simdTailLoop_eq_packedLoop]
  rw [show (L + 3) / 4 = 8 * (L / 32) + (L - 32 * (L / 32) + 3) / 4 from by omega]
  rw [packedLoop_split, hinner]
  rw [show 0 + 4 * (8 * (L / 32)) = 32 * (L / 32) from by ring]

/-- Consistency of a packed image: the generic accessor At(x,y).RGBA() of a Go
*image.RGBA / *image.NRGBA value with an opaque-free interpretation returns
each Pix byte replicated to 16 bits (v | v<<8 = 257 * v), at the row-major
offset 4 * (y * width + x).  This is how Go's image package defines At for
these layouts (for NRGBA with fully opaque alpha, where premultiplication is
the identity). -/
def rgbaConsistent (img : Img) (w h : ℕ) : Prop :=
  ∀ x y : ℕ, x < w → y < h →
    img.at16 ((x : ℤ) + img.minX) ((y : ℤ) + img.minY) =
      (257 * img.pix.getD (4 * (y * w + x)) 0,
       257 * img.pix.getD (4 * (y * w + x) + 1) 0,
       257 * img.pix.getD (4 * (y * w + x) + 2) 0,
       257 * img.pix.getD (4 * (y * w + x) + 3) 0)

theorem genContrib_consistent (img1 img2 : Img) (hasAlpha : Bool) (w h x y : ℕ)
    (hx : x < w) (hy : y < h)
    (hb1 : ∀ b ∈ img1.pix, b < 256) (hb2 : ∀ b ∈ img2.pix, b < 256)
    (hc1 : rgbaConsistent img1 w h) (hc2 : rgbaConsistent img2 w h) :
    genContrib img1 img2 hasAlpha x y =
      pairContrib img1.pix img2.pix hasAlpha (4 * (y * w + x)) := by
  have hdiv : ∀ v : ℕ, v < 256 → 257 * v / 256 = v := by omega
  unfold genContrib pairContrib
  rw [hc1 x y hx hy, hc2 x y hx hy]
  simp only
  rw [hdiv _ (getD_lt_256 img1.pix _ hb1), hdiv _ (getD_lt_256 img1.pix _ hb1),
    hdiv _ (getD_lt_256 img1.pix _ hb1), hdiv _ (getD_lt_256 img1.pix _ hb1),
    hdiv _ (getD_lt_256 img2.pix _ hb2), hdiv _ (getD_lt_256 img2.pix _ hb2),
    hdiv _ (getD_lt_256 img2.pix _ hb2), hdiv _ (getD_lt_256 img2.pix _ hb2)]

theorem sum_grid (f : ℕ → ℕ) (w : ℕ) :
    ∀ h : ℕ, (∑ y in Finset.range h, ∑ x in Finset.range w, f (y * w + x)) =
      ∑ k in Finset.range (h * w), f k := by
  intro h
  induction h with
  | zero => simp
  | succ h ih =>
      rw [Finset.sum_range_succ, ih, show (h + 1) * w = h * w + w from by ring,
        sum_range_add]

/-- The generic kernel coincides with the packed RGBA kernel whenever both
images are consistent packed views (byte buffers of length 4 * w * h exposing
At as 257 * byte). -/
theorem computeMSEGeneric_eq_rgba (img1 img2 : Img) (hasAlpha : Bool) (w h : ℕ)
    (hlen : img1.pix.length = 4 * (w * h))
    (hb1 : ∀ b ∈ img1.pix, b < 256) (hb2 : ∀ b ∈ img2.pix, b < 256)
    (hc1 : rgbaConsistent img1 w h) (hc2 : rgbaConsistent img2 w h) :
    computeMSEGeneric img1 img2 w h hasAlpha = computeMSERGBA img1 img2 hasAlpha := by
  rw [computeMSEGeneric_eq, computeMSERGBA_eq]
  have hspec : genericSpecSum img1 img2 w h hasAlpha =
      packedSpecSum img1.pix img2.pix hasAlpha ((img1.pix.length + 3) / 4) := by
    unfold genericSpecSum
    rw [Finset.sum_congr rfl fun y hy => Finset.sum_congr rfl fun x hx =>
      genContrib_consistent img1 img2 hasAlpha w h x y (Finset.mem_range.mp hx)
        (Finset.mem_range.mp hy) hb1 hb2 hc1 hc2]
    rw [sum_grid (fun k => pairContrib img1.pix img2.pix hasAlpha (4 * k)) w h]
    unfold packedSpecSum
    rw [show (img1.pix.length + 3) / 4 = h * w from by
      rw [hlen, Nat.mul_comm w h]; omega]
  rw [hspec]

/-- C2 amended: for byte-valued packed buffers, the AVX2 SIMD kernel returns
exactly the scalar packed kernel's accumulated sum PROVIDED the mathematical
sum over the vectorized portion (the first 8 * (len/32) pixels) is below 2^31
— in particular for all buffers shorter than 32 bytes and for all real-image
comparisons whose accumulated squared error stays below 2^31.  The two packed
scalar kernels always agree with each other, and the generic kernel agrees
with the packed kernel on consistent packed views.  (Beyond the 2^31 bound the
32-bit lane accumulator and the signed 32-bit horizontal extraction diverge
from the scalar kernel — see the counterexample.) -/
theorem c2_simd_equivalence_amended (img1 img2 : Img) (hasAlpha : Bool)
    (hb1 : ∀ b ∈ img1.pix, b < 256) (hb2 : ∀ b ∈ img2.pix, b < 256)
    (hsmall : packedSpecSum img1.pix img2.pix hasAlpha
        (8 * (img1.pix.length / 32)) < 2147483648) :
    computeMSE_RGBA_CGo img1 img2 hasAlpha = computeMSERGBA img1 img2 hasAlpha ∧
    computeMSE_NRGBA_CGo img1 img2 hasAlpha = computeMSENRGBA img1 img2 hasAlpha ∧
    computeMSENRGBA img1 img2 hasAlpha = computeMSERGBA img1 img2 hasAlpha ∧
    (∀ w h : ℕ, img1.pix.length = 4 * (w * h) →
      rgbaConsistent img1 w h → rgbaConsistent img2 w h →
      computeMSEGeneric img1 img2 w h hasAlpha = computeMSERGBA img1 img2 hasAlpha) := by
  have hmain := compute_mse_rgba_simd_eq_small img1.pix img2.pix hasAlpha
    img1.pix.length hb1 hb2 hsmall
  exact ⟨hmain, hmain, rfl,
    fun w h hlen hc1 hc2 =>
      computeMSEGeneric_eq_rgba img1 img2 hasAlpha w h hlen hb1 hb2 hc1 hc2⟩

/-- Witness for C2 amended at a concrete input: the 1-by-1 byte-valued pair
(imgA, imgB) — whose vectorized portion is empty, hence trivially below 2^31 —
has the SIMD kernel, both scalar packed kernels and the generic kernel all
agreeing. -/
theorem c2_simd_equivalence_amended_witness :
    ((∀ b ∈ imgA.pix, b < 256) ∧
      packedSpecSum imgA.pix imgB.pix true (8 * (imgA.pix.length / 32)) < 2147483648) ∧
    computeMSE_RGBA_CGo imgA imgB true = computeMSERGBA imgA imgB true ∧
    computeMSEGeneric imgA imgB 1 1 true = computeMSERGBA imgA imgB true :=
  ⟨⟨by decide, by decide⟩,
    (c2_simd_equivalence_amended imgA imgB true (by decide) (by decide) (by decide)).1,
    (c2_simd_equivalence_amended imgA imgB true (by decide) (by decide) (by decide)).2.2.2
      1 1 rfl
      (fun x y hx hy => by
        have hx0 : x = 0 := by omega
        have hy0 : y = 0 := by omega
        subst hx0 hy0
        decide)
      (fun x y hx hy => by
        have hx0 : x = 0 := by omega
        have hy0 : y = 0 := by omega
        subst hx0 hy0
        decide)⟩

/-- All-255 packed buffer of 33056 bytes (8264 pixels = 8 x 1033 image). -/
def cPix1 : List ℕ := List.replicate 33056 255

/-- All-0 packed buffer of 33056 bytes. -/
def cPix2 : List ℕ := List.replicate 33056 0

/-- Concrete 8-by-1033 all-white RGBA image. -/
def imgC1 : Img :=
  ⟨8, 1033, 0, 0, .rgba, cPix1, fun _ _ => 0, fun _ _ => 0, fun _ _ => 0,
    fun _ _ => (65535, 65535, 65535, 65535)⟩

/-- Concrete 8-by-1033 all-black RGBA image. -/
def imgC2 : Img :=
  ⟨8, 1033, 0, 0, .rgba, cPix2, fun _ _ => 0, fun _ _ => 0, fun _ _ => 0,
    fun _ _ => (0, 0, 0, 0)⟩

theorem getD_replicate (a d : ℕ) :
    ∀ (n i : ℕ), i < n → (List.replicate n a).getD i d = a := by
  intro n
  induction n with
  | zero =>
      intro i hi
      omega
  | succ n ih =>
      intro i hi
      cases i with
      | zero => rfl
      | succ i =>
          rw [List.replicate_succ, List.getD_cons_succ]
          exact ih i (by omega)

/-- C2 counterexample: on the equal-length 33056-byte buffer pair all-255 vs
all-0 (an 8 x 1033 image pair, alpha participating), the AVX2 SIMD kernel
returns 18446744071564050720 while the scalar packed kernel computeMSERGBA
returns the true sum 2149466400 = 33056 * 65025: the vectorized 32-bit lanes
accumulate 2149466400 which, extracted through the signed 32-bit
`_mm_cvtsi128_si32`, is sign-extended into the uint64 total.  The kernels are
not exactly equal for all buffer lengths and contents. -/
theorem c2_simd_counterexample :
    computeMSE_RGBA_CGo imgC1 imgC2 true = 18446744071564050720 ∧
    computeMSERGBA imgC1 imgC2 true = 2149466400 ∧
    computeMSE_RGBA_CGo imgC1 imgC2 true ≠ computeMSERGBA imgC1 imgC2 true := by
  have hlen : cPix1.length = 33056 := by
    unfold cPix1
    exact List.length_replicate 33056 255
  have hmask : ∀ j : ℕ, j < 33056 → maskedSq cPix1 cPix2 true j = 65025 := by
    intro j hj
    unfold maskedSq
    rw [if_neg (fun hc => absurd hc.1 (by decide))]
    unfold cPix1 cPix2
    rw [getD_replicate 255 0 33056 j hj, getD_replicate 0 0 33056 j hj]
    decide
  have hpair : ∀ k : ℕ, k < 8264 → pairContrib cPix1 cPix2 true (4 * k) = 260100 := by
    intro k hk
    unfold pairContrib cPix1 cPix2
    rw [if_pos rfl]
    rw [getD_replicate 255 0 33056 (4 * k) (by omega),
      getD_replicate 255 0 33056 (4 * k + 1) (by omega),
      getD_replicate 255 0 33056 (4 * k + 2) (by omega),
      getD_replicate 255 0 33056 (4 * k + 3) (by omega),
      getD_replicate 0 0 33056 (4 * k) (by omega),
      getD_replicate 0 0 33056 (4 * k + 1) (by omega),
      getD_replicate 0 0 33056 (4 * k + 2) (by omega),
      getD_replicate 0 0 33056 (4 * k + 3) (by omega)]
    decide
  have hS : packedSpecSum cPix1 cPix2 true 8264 = 2149466400 := by
    unfold packedSpecSum
    rw [Finset.sum_congr rfl fun k hk => hpair k (Finset.mem_range.mp hk)]
    simp [Finset.sum_const, Finset.card_range]
  have hscalar : computeMSERGBA imgC1 imgC2 true = 2149466400 := by
    rw [computeMSERGBA_eq]
    rw [show imgC1.pix = cPix1 from rfl, show imgC2.pix = cPix2 from rfl, hlen]
    rw [show (33056 + 3) / 4 = 8264 from by norm_num, hS]
    norm_num [M64]
  have hvec : laneTotal (simdVecLoop cPix1 cPix2 true 0 1033 ⟨0, 0, 0, 0, 0, 0, 0, 0⟩) %
      M32 = 2149466400 := by
    rw [laneTotal_simdVecLoop]
    have h1 : ∑ j in Finset.range (32 * 1033), maskedSq cPix1 cPix2 true (0 + j)
        = ∑ _j in Finset.range (32 * 1033), 65025 := by
      refine Finset.sum_congr rfl fun j hj => ?_
      rw [Nat.zero_add]
      exact hmask j (by have := Finset.mem_range.mp hj; omega)
    rw [show laneTotal ⟨0, 0, 0, 0, 0, 0, 0, 0⟩ = 0 from rfl, Nat.zero_add, h1]
    rw [Finset.sum_const, Finset.card_range]
    norm_num [M32]
  have hsimd : computeMSE_RGBA_CGo imgC1 imgC2 true = 18446744071564050720 := by
    have hcall : computeMSE_RGBA_CGo imgC1 imgC2 true =
        compute_mse_rgba_simd cPix1 cPix2 33056 true := by
      unfold computeMSE_RGBA_CGo
      rw [show imgC1.pix = cPix1 from rfl, show imgC2.pix = cPix2 from rfl, hlen]
    rw [hcall]
    simp only [compute_mse_rgba_simd]
    rw [show (33056 : ℕ) / 32 = 1033 from by norm_num]
    rw [hsum_eq, hvec]
    rw [show sext32 2149466400 = 18446744071564050720 from by
      simp only [sext32]; rw [if_neg (by norm_num)]; norm_num [M64, M32]]
    rw [show (0 + 18446744071564050720) % M64 = 18446744071564050720 from by
      norm_num [M64],
      show (33056 - 32 * 1033 + 3) / 4 = 0 from by norm_num]
    rfl
  exact ⟨hsimd, hscalar, by rw [hsimd, hscalar]; norm_num⟩

end GoPsnr
